import Mathlib

/-!
The generation engine of tymlate (`generator/generator.go`, `generator/model.go`).

A shallow embedding of the Go package `gen` and a verification of its specification.

Modelling conventions.

* A Go `string` is a Lean `String`. `len`, `strings.HasSuffix` and slicing are taken on the
  character sequence; on valid UTF-8 text they agree with Go's byte-wise versions whenever
  the slice point is the start of a suffix, which is the only way the code slices.
* A Go `map[string]T` is an association list `GoMap T` with `get`/`set`; `range` visits
  the entries in list order. A well-formed map has no repeated key.
* A Go call has three possible outcomes, kept apart by `Res`: a normal return
  (`ok`), a returned `error` (`err`) and a panic (`panic`).
* Everything outside the package (the `os`, `path/filepath`, `regexp`, `text/template`
  and `yaml` libraries, and the file system itself) is a field of `Host`. File-system
  fields receive the list of effects performed so far, so a host can answer differently
  as the run goes on. The tree walked by `filepath.Walk` is read once, when the walk
  starts: the run is assumed not to change the tree it is walking.
* Side effects of a run are recorded, in order, in a list of `Effect`s.
-/

namespace Tymlate

/-! ## Go values -/

/-- Go `error` values, classified the way `os.IsNotExist` and `os.IsExist` classify them. -/
inductive GoErr where
  | notExist (msg : String)
  | exist (msg : String)
  | other (msg : String)
  deriving DecidableEq, Repr

/-- The function `os.IsNotExist(err)` for a non-nil error. -/
def GoErr.isNotExist : GoErr → Bool
  | .notExist _ => true
  | _ => false

/-- The function `os.IsExist(err)` for a non-nil error. -/
def GoErr.isExist : GoErr → Bool
  | .exist _ => true
  | _ => false

/-- The text of an error (`err.Error()`). -/
def GoErr.msg : GoErr → String
  | .notExist m => m
  | .exist m => m
  | .other m => m

/-- The function `os.IsExist(err)` for a possibly nil error: false on nil. -/
def osIsExist : Option GoErr → Bool
  | none => false
  | some e => e.isExist

/-- The function `os.IsNotExist(err)` for a possibly nil error: false on nil. -/
def osIsNotExist : Option GoErr → Bool
  | none => false
  | some e => e.isNotExist

/-- Outcome of a Go call: normal return, returned error, or panic. -/
inductive Res (α : Type) where
  | ok (a : α)
  | err (e : GoErr)
  | panic (msg : String)
  deriving DecidableEq, Repr

/-- The outcome of a function whose only result is an `error`: `nil` is `ok ()`. -/
abbrev GoError := Res Unit

/-- The statement `return err` for a possibly nil `err`. -/
def returnErr : Option GoErr → GoError
  | none => .ok ()
  | some e => .err e

/-- A value of type `interface{}` as produced by the YAML decoder. -/
inductive Val where
  | null
  | bool (b : Bool)
  | int (i : Int)
  | str (s : String)
  | seq (items : List Val)
  | map (fields : List (String × Val))

/-- A Go `map[string]α`. -/
abbrev GoMap (α : Type) := List (String × α)

/-- Map lookup `m[k]` with the presence flag: `none` when the key is absent. -/
def GoMap.get {α : Type} : GoMap α → String → Option α
  | [], _ => none
  | (k', v) :: rest, k => if k' = k then some v else GoMap.get rest k

/-- Map assignment `m[k] = v`: overwrites the entry of `k` or adds one. -/
def GoMap.set {α : Type} : GoMap α → String → α → GoMap α
  | [], k, v => [(k, v)]
  | (k', v') :: rest, k, v => if k' = k then (k, v) :: rest else (k', v') :: GoMap.set rest k v

/-- The keys of a map. -/
def GoMap.keys {α : Type} (m : GoMap α) : List String := m.map Prod.fst

/-- A well-formed Go map: no key occurs twice. -/
def GoMap.WF {α : Type} (m : GoMap α) : Prop := m.keys.Nodup

instance (α : Type) (m : GoMap α) : Decidable m.WF :=
  inferInstanceAs (Decidable (List.Nodup (List.map Prod.fst m)))

/-- The function `strings.HasSuffix(s, suffix)`. -/
def stringsHasSuffix (s suffix : String) : Bool := suffix.data.isSuffixOf s.data

/-- The slice `s[:len(s)-len(suffix)]`. -/
def sliceOff (s suffix : String) : String := ⟨s.data.take (s.data.length - suffix.data.length)⟩

/-- Splitting of a character sequence at every occurrence of `sep`. -/
def splitChars (sep : Char) : List Char → List (List Char)
  | [] => [[]]
  | c :: cs =>
    if c = sep then [] :: splitChars sep cs
    else
      match splitChars sep cs with
      | [] => [[c]]
      | p :: ps => (c :: p) :: ps

/-- The function `strings.Split(s, sep)` for a separator of one character, as in `strings.Split(v, "=")`. -/
def stringsSplit (s : String) (sep : Char) : List String :=
  (splitChars sep s.data).map String.mk

/-! ## The configuration and the model -/

/-- Modelled from the spec: the declaration of `config.Config` is in the package `config`,
which is missing; section 6 of the specification lists the keys `templates.suffix`,
`templates.processFilename`, `templates.excludes` and `templates.includes`, and the code
reads the fields `Suffix`, `ProcessFilename`, `Excludes` and `Includes`. -/
structure Templates where
  Suffix : String
  ProcessFilename : Bool
  Excludes : List String
  Includes : List String

/-- Modelled from the spec: the declaration of `config.Config` is missing; it has the inline
data (`data`: namespace to mapping), the includes (`include`: namespace to file path) and
the `templates` section. -/
structure Config where
  Data : GoMap (GoMap Val)
  Include : GoMap String
  Templates : Templates

/-- The zero value of `config.Config` (`var model config.Config`). -/
def Config.zero : Config := ⟨[], [], ⟨"", false, [], []⟩⟩

/-- The struct `TemplateModel` of `model.go`. -/
structure TemplateModel where
  SourcePath : String
  TargetPath : String
  ConfigPath : String
  Config : Config
  StopIfTargetNotEmpty : Bool

/-- The render context `map[string]map[string]interface{}`. -/
abbrev Context := GoMap (GoMap Val)

/-! ## The world outside the package -/

/-- An observable side effect of a run. -/
inductive Effect where
  /-- A line written by `println` or `fmt.Printf`. -/
  | print (line : String)
  /-- A successful `os.MkdirAll(path, os.ModePerm)`. -/
  | mkdirAll (path : String)
  /-- A successful `os.Create(dst)`, made while processing the source entry `src`. -/
  | create (src dst : String)
  /-- The bytes `data` written to the file created at `dst`. -/
  | write (dst : String) (data : String)
  deriving DecidableEq, Repr

/-- What `os.Lstat` and `readDirNames` show of a file tree to `filepath.Walk`. -/
inductive Node where
  /-- An entry that is not a directory. -/
  | file : Node
  /-- A directory; `readErr` is the error of reading its entry names, if any. -/
  | dir (readErr : Option GoErr) (children : List (String × Node)) : Node
  /-- An entry on which `os.Lstat` fails with `err`. -/
  | broken (err : GoErr) : Node

/-- The part of `os.FileInfo` the package reads. -/
structure FileInfo where
  name : String
  isDir : Bool
  deriving DecidableEq, Repr

/-- The libraries and the file system the package runs against. -/
structure Host where
  /-- The result of `os.Environ()`. -/
  environ : List String
  /-- The function `regexp.Compile` followed by `MatchString`: `none` when the pattern does
  not compile. -/
  regexpCompile : String → Option (String → Bool)
  /-- Parsing of a template text with the function map `funcMap()`; a parsed template is
  the function `Execute` computes: the output written and the error, if any. -/
  templateParse : String → Except GoErr (Context → String × Option GoErr)
  /-- The function `yaml.Unmarshal` into a `map[string]interface{}`. -/
  yamlUnmarshal : String → Except GoErr (GoMap Val)
  /-- The function `yaml.Unmarshal` into a `config.Config`. -/
  yamlUnmarshalConfig : String → Except GoErr Config
  filepathJoin : String → String → String
  filepathRel : String → String → Except GoErr String
  filepathDir : String → String
  filepathBase : String → String
  filepathIsAbs : String → Bool
  /-- The tree `filepath.Walk` finds at a path. -/
  lstatTree : List Effect → String → Node
  /-- The function `os.Stat`: its error, or whether the mode is that of a regular file. -/
  stat : List Effect → String → Except GoErr Bool
  /-- The error of `os.Open(path)`. -/
  osOpen : List Effect → String → Option GoErr
  /-- Reading a whole file: `ioutil.ReadFile(path)`, or the reading side of `io.Copy`. -/
  readFile : List Effect → String → Except GoErr String
  /-- The error of `os.MkdirAll(path, os.ModePerm)`. -/
  mkdirAll : List Effect → String → Option GoErr
  /-- The error of `os.Create(path)`. -/
  create : List Effect → String → Option GoErr
  /-- The error of writing `data` to the file created at the path. -/
  write : List Effect → String → String → Option GoErr

/-! ## `model.go` -/

/-- The loop of `isExcluded` and of `isIncluded` over a pattern list: true at the first pattern
that matches somewhere in `source`; `regexp.MustCompile` panics on a pattern that does not
compile. -/
def matchAny (h : Host) : List String → String → Res Bool
  | [], _ => .ok false
  | pat :: rest, source =>
    match h.regexpCompile pat with
    | none => .panic ("regexp: Compile(" ++ pat ++ "): error parsing regexp")
    | some regex => if regex source then .ok true else matchAny h rest source

/-- The method `TemplateModel.isExcluded`. -/
def TemplateModel.isExcluded (h : Host) (tm : TemplateModel) (source : String) : Res Bool :=
  matchAny h tm.Config.Templates.Excludes source

/-- The method `TemplateModel.isIncluded`. -/
def TemplateModel.isIncluded (h : Host) (tm : TemplateModel) (source : String) : Res Bool :=
  matchAny h tm.Config.Templates.Includes source

/-- A callback of `filepath.Walk`: path, file information (nil when `Lstat` failed), error. -/
abbrev WalkFunc := String → Option FileInfo → Option GoErr → List Effect → GoError × List Effect

mutual
/-- The function `filepath.Walk` on a tree: the callback is called on the entry, then on the
children of a directory that was read without error, in order; the first non-nil
result of the callback stops the walk and is returned. (No error of this package is
`filepath.SkipDir`.) -/
def walk (h : Host) (walkFn : WalkFunc) :
    String → String → Node → List Effect → GoError × List Effect
  | path, _, .broken e, hist => walkFn path none (some e) hist
  | path, name, .file, hist => walkFn path (some ⟨name, false⟩) none hist
  | path, name, .dir readErr children, hist =>
    match walkFn path (some ⟨name, true⟩) readErr hist with
    | (.ok (), hist1) =>
      if readErr.isSome then (.ok (), hist1) else walkChildren h walkFn path children hist1
    | r => r
/-- The loop of `filepath.Walk` over the entry names of a directory. -/
def walkChildren (h : Host) (walkFn : WalkFunc) :
    String → List (String × Node) → List Effect → GoError × List Effect
  | _, [], hist => (.ok (), hist)
  | path, (name, node) :: rest, hist =>
    match walk h walkFn (h.filepathJoin path name) name node hist with
    | (.ok (), hist1) => walkChildren h walkFn path rest hist1
    | r => r
end

/-- The function `filepath.Walk(root, fn)`. -/
def filepathWalk (h : Host) (root : String) (walkFn : WalkFunc) (hist : List Effect) :
    GoError × List Effect :=
  walk h walkFn root (h.filepathBase root) (h.lstatTree hist root) hist

/-- The check of the target directory in `NewTemplateModel` (`if stopIfNotEmpty { ... }`). -/
def checkTargetEmpty (h : Host) (target : String) : GoError :=
  let statErr : Option GoErr :=
    match h.stat [] target with
    | .error e => some e
    | .ok _ => none
  if osIsExist statErr then
    (filepathWalk h target
      (fun path _ _ hist => (.err (.other ("the target directory is not empty: " ++ path)), hist))
      []).1
  else .ok ()

/-- The function `NewTemplateModel`. -/
def NewTemplateModel (h : Host) (source target configPath : String) (stopIfNotEmpty : Bool) :
    Res TemplateModel :=
  if source.utf8ByteSize < 1 then .err (.other "source must be set")
  else if target.utf8ByteSize < 1 then .err (.other "target must be set")
  else
    match (if stopIfNotEmpty then checkTargetEmpty h target else .ok ()) with
    | .err e => .err e
    | .panic m => .panic m
    | .ok () =>
      if configPath.utf8ByteSize > 0 then
        match h.readFile [] configPath with
        | .error e => .panic e.msg
        | .ok readFile =>
          match h.yamlUnmarshalConfig readFile with
          | .error e => .err e
          | .ok model => .ok ⟨source, target, configPath, model, stopIfNotEmpty⟩
      else .ok ⟨source, target, configPath, Config.zero, stopIfNotEmpty⟩

/-! ## `generator.go` -/

/-- The loop of `envToMap` over `os.Environ()`; `part[1]` panics when the entry has no `=`. -/
def envToMapLoop : List String → GoMap String → Res (GoMap String)
  | [], envMap => .ok envMap
  | v :: rest, envMap =>
    match stringsSplit v '=' with
    | p0 :: p1 :: _ => envToMapLoop rest (envMap.set p0 p1)
    | _ => .panic "runtime error: index out of range [1] with length 1"

/-- The function `envToMap`. -/
def envToMap (h : Host) : Res (GoMap String) := envToMapLoop h.environ []

/-- The function `readYamlConfig`. -/
def readYamlConfig (h : Host) (hist : List Effect) (yamlFilePath : String) : Res (GoMap Val) :=
  match h.readFile hist yamlFilePath with
  | .error e => .err e
  | .ok yamlFile =>
    match h.yamlUnmarshal yamlFile with
    | .error e => .err e
    | .ok body => .ok body

/-- The path `cPath` of an include: absolute paths as they are, relative ones under the
directory of the master configuration. -/
def includePath (h : Host) (tm : TemplateModel) (v : String) : String :=
  if h.filepathIsAbs v then v else h.filepathJoin (h.filepathDir tm.ConfigPath) v

/-- The loop of `prepareContext` over `tm.Config.Include`. -/
def includeLoop (h : Host) (tm : TemplateModel) (hist : List Effect) :
    List (String × String) → Context → Res Context
  | [], context => .ok context
  | (k, v) :: rest, context =>
    match readYamlConfig h hist (includePath h tm v) with
    | .err e => .err e
    | .panic m => .panic m
    | .ok yamlConfig => includeLoop h tm hist rest (context.set k yamlConfig)

/-- The map `envIMap` of `prepareContext`: the environment map with its values as
`interface{}`. -/
def envIMap (envMap : GoMap String) : GoMap Val :=
  envMap.foldl (fun m kv => m.set kv.1 (Val.str kv.2)) []

/-- The method `TemplateModel.prepareContext`. -/
def TemplateModel.prepareContext (h : Host) (tm : TemplateModel) (hist : List Effect) :
    Res Context :=
  match envToMap h with
  | .err e => .err e
  | .panic m => .panic m
  | .ok envMap =>
    let context : Context := GoMap.set [] "Env" (envIMap envMap)
    let context := tm.Config.Data.foldl (fun c kv => c.set kv.1 kv.2) context
    includeLoop h tm hist tm.Config.Include context

/-- The method `TemplateModel.prepareTargetFilename`; `template.Must` panics on a template
that does not parse. -/
def TemplateModel.prepareTargetFilename (h : Host) (tm : TemplateModel) (context : Context)
    (currentTarget : String) : Res String :=
  let rendered : Res String :=
    if tm.Config.Templates.ProcessFilename then
      match h.templateParse currentTarget with
      | .error e => .panic ("template: " ++ e.msg)
      | .ok tpl =>
        match tpl context with
        | (_, some e) => .err e
        | (destination, none) => .ok destination
    else .ok currentTarget
  match rendered with
  | .ok realTarget =>
    let suf := tm.Config.Templates.Suffix
    if stringsHasSuffix realTarget suf then .ok (sliceOff realTarget tm.Config.Templates.Suffix)
    else .ok realTarget
  | r => r

/-- The struct `genConfig`. -/
structure genConfig where
  source : String
  target : String
  context : Context

/-- The method `genConfig.processTemplate`; `template.Must` panics when the file cannot be
read or does not parse. -/
def genConfig.processTemplate (h : Host) (c : genConfig) (hist : List Effect) :
    GoError × List Effect :=
  let hist1 := hist ++ [.print (c.source ++ " --> " ++ c.target ++ "\n")]
  match h.readFile hist1 c.source with
  | .error e => (.panic ("template: " ++ e.msg), hist1)
  | .ok text =>
    match h.templateParse text with
    | .error e => (.panic ("template: " ++ e.msg), hist1)
    | .ok tpl =>
      match h.create hist1 c.target with
      | some e => (.err e, hist1)
      | none =>
        let hist2 := hist1 ++ [.create c.source c.target]
        let out := tpl c.context
        match h.write hist2 c.target out.1 with
        | some e => (.err e, hist2)
        | none => (returnErr out.2, hist2 ++ [.write c.target out.1])

/-- The function `fsCopy`. -/
def fsCopy (h : Host) (src dst : String) (hist : List Effect) : Res Nat × List Effect :=
  match h.stat hist src with
  | .error e => (.err e, hist)
  | .ok isRegular =>
    if !isRegular then (.err (.other (src ++ " is not a regular file")), hist)
    else
      match h.osOpen hist src with
      | some e => (.err e, hist)
      | none =>
        match h.create hist dst with
        | some e => (.err e, hist)
        | none =>
          let hist1 := hist ++ [.create src dst]
          match h.readFile hist1 src with
          | .error e => (.err e, hist1)
          | .ok data =>
            match h.write hist1 dst data with
            | some e => (.err e, hist1)
            | none => (.ok data.utf8ByteSize, hist1 ++ [.write dst data])

/-- The decision `skip` of the walk callback of `Generate`. -/
def TemplateModel.skip (h : Host) (tm : TemplateModel) (excludeMode : Bool)
    (relSource : String) : Res Bool :=
  if excludeMode then tm.isExcluded h relSource
  else
    match tm.isIncluded h relSource with
    | .ok b => .ok (!b)
    | r => r

/-- The creation of the directory of the target file in the walk callback:
`if _, err := os.Stat(dir); os.IsNotExist(err) { os.MkdirAll(dir, os.ModePerm) }`. -/
def ensureDir (h : Host) (currentTargetDir : String) (hist : List Effect) :
    GoError × List Effect :=
  let statErr : Option GoErr :=
    match h.stat hist currentTargetDir with
    | .error e => some e
    | .ok _ => none
  if osIsNotExist statErr then
    match h.mkdirAll hist currentTargetDir with
    | some e => (.err e, hist)
    | none => (.ok (), hist ++ [.mkdirAll currentTargetDir])
  else (.ok (), hist)

/-- The walk callback of `Generate` (the function literal passed to `filepath.Walk`);
`info.IsDir()` on a nil `info` is a nil dereference. -/
def TemplateModel.walkFn (h : Host) (tm : TemplateModel) (excludeMode : Bool) : WalkFunc :=
  fun relSource info err hist =>
    match tm.skip h excludeMode relSource with
    | .err e => (.err e, hist)
    | .panic m => (.panic m, hist)
    | .ok true => (returnErr err, hist)
    | .ok false =>
      match h.filepathRel tm.SourcePath relSource with
      | .error e => (.err e, hist)
      | .ok rel =>
        let currentTarget := h.filepathJoin tm.TargetPath rel
        match info with
        | none => (.panic "runtime error: invalid memory address or nil pointer dereference", hist)
        | some info =>
          if info.isDir then (returnErr err, hist)
          else
            let tmplSuffix := tm.Config.Templates.Suffix
            match tm.prepareContext h hist with
            | .err cErr => (.err cErr, hist)
            | .panic m => (.panic m, hist)
            | .ok context =>
              match tm.prepareTargetFilename h context currentTarget with
              | .err fErr => (.err fErr, hist)
              | .panic m => (.panic m, hist)
              | .ok realTarget =>
                let currentTargetDir := h.filepathDir realTarget
                match ensureDir h currentTargetDir hist with
                | (.err e, hist1) => (.err e, hist1)
                | (.panic m, hist1) => (.panic m, hist1)
                | (.ok (), hist1) =>
                  if stringsHasSuffix info.name tmplSuffix then
                    match genConfig.processTemplate h ⟨relSource, realTarget, context⟩ hist1 with
                    | (.ok (), hist2) => (returnErr err, hist2)
                    | r => r
                  else
                    match fsCopy h relSource realTarget hist1 with
                    | (.ok _, hist2) => (returnErr err, hist2)
                    | (.err e, hist2) => (.err e, hist2)
                    | (.panic m, hist2) => (.panic m, hist2)

/-- The variable `excludeMode` of `Generate`: true unless both lists are non-empty. -/
def TemplateModel.excludeMode (tm : TemplateModel) : Bool :=
  !(decide (tm.Config.Templates.Excludes.length > 0) &&
    decide (tm.Config.Templates.Includes.length > 0))

/-- The effect of the first statement of `Generate`: the advisory line printed when both lists
are non-empty. -/
def TemplateModel.advisory (tm : TemplateModel) : List Effect :=
  if tm.excludeMode then []
  else
    [.print "Both excludes and includes are defined in config file, so only includes will be used.\n"]

/-- The method `TemplateModel.Generate`: the outcome and the effects of the run. -/
def TemplateModel.Generate (h : Host) (tm : TemplateModel) : GoError × List Effect :=
  let excludeMode := tm.excludeMode
  let hist0 : List Effect := tm.advisory
  match h.mkdirAll hist0 tm.TargetPath with
  | some osErr => (.err osErr, hist0)
  | none =>
    filepathWalk h tm.SourcePath (tm.walkFn h excludeMode) (hist0 ++ [.mkdirAll tm.TargetPath])

/-- The model with its exclude list replaced. -/
def TemplateModel.withExcludes (tm : TemplateModel) (excludes : List String) : TemplateModel :=
  { tm with Config := { tm.Config with
      Templates := { tm.Config.Templates with Excludes := excludes } } }

/-- Whether a pattern compiles and matches somewhere in the text. -/
def patternMatches (h : Host) (pat text : String) : Bool :=
  match h.regexpCompile pat with
  | some regex => regex text
  | none => false

/-- The parsed document of the include with path `v`, when it loads. -/
def includeDoc (h : Host) (tm : TemplateModel) (hist : List Effect) (v : String) :
    Option (GoMap Val) :=
  match readYamlConfig h hist (includePath h tm v) with
  | .ok doc => some doc
  | _ => none

/-! ## The entries of a walk -/

/-- One call of the walk callback: the path, the file information and the error passed. -/
structure Entry where
  path : String
  info : Option FileInfo
  err : Option GoErr

mutual
/-- The calls `filepath.Walk` makes on a tree, in order, as long as the callback returns
nil: the entry itself, then the entries of the children of a directory that was read
without error. -/
def walkEntries (h : Host) : String → String → Node → List Entry
  | path, _, .broken e => [⟨path, none, some e⟩]
  | path, name, .file => [⟨path, some ⟨name, false⟩, none⟩]
  | path, name, .dir readErr children =>
    ⟨path, some ⟨name, true⟩, readErr⟩ ::
      (if readErr.isSome then [] else childrenEntries h path children)
/-- The calls made for the entry names of a directory. -/
def childrenEntries (h : Host) : String → List (String × Node) → List Entry
  | _, [] => []
  | path, (name, node) :: rest =>
    walkEntries h (h.filepathJoin path name) name node ++ childrenEntries h path rest
end

/-- The callback run on a list of entries in order, up to its first non-nil result. -/
def runEntries (walkFn : WalkFunc) : List Entry → List Effect → GoError × List Effect
  | [], hist => (.ok (), hist)
  | e :: rest, hist =>
    match walkFn e.path e.info e.err hist with
    | (.ok (), hist1) => runEntries walkFn rest hist1
    | r => r

/-- The effects of `Generate` when the walk starts. -/
def TemplateModel.walkStart (tm : TemplateModel) : List Effect :=
  tm.advisory ++ [.mkdirAll tm.TargetPath]

/-- The entries of the walk of `Generate`. -/
def TemplateModel.entries (h : Host) (tm : TemplateModel) : List Entry :=
  walkEntries h tm.SourcePath (h.filepathBase tm.SourcePath)
    (h.lstatTree tm.walkStart tm.SourcePath)

/-- The run of `Generate` gets to the entry `ent` with the effects `hist`: the target root was
created and the callback returned nil on every entry before `ent`. -/
def TemplateModel.Reaches (h : Host) (tm : TemplateModel) (ent : Entry) (hist : List Effect) :
    Prop :=
  h.mkdirAll tm.advisory tm.TargetPath = none ∧
    ∃ before after, tm.entries h = before ++ ent :: after ∧
      runEntries (tm.walkFn h tm.excludeMode) before tm.walkStart = (.ok (), hist)

/-- The content of the file at `path` after one more effect: `os.Create` makes it empty,
a write to it appends the bytes, any other effect leaves it as it is; `none` is a file
the run has not created. -/
def contentStep (path : String) (content : Option String) : Effect → Option String
  | .create _ dst => if dst = path then some "" else content
  | .write dst data => if dst = path then content.map (fun c => c ++ data) else content
  | _ => content

/-- The content the effects of a run leave in the file at `path`. -/
def contentAfter (hist : List Effect) (path : String) : Option String :=
  hist.foldl (contentStep path) none

/-- The source and the target of a file creation. -/
def Effect.created : Effect → Option (String × String)
  | .create src dst => some (src, dst)
  | _ => none

/-- The path `dst` is the real target of the walk path `src`: the result of
`prepareTargetFilename`, for a context built by `prepareContext`, on the target root joined
with the path of `src` relative to the source root. -/
def TemplateModel.TargetOf (h : Host) (tm : TemplateModel) (src dst : String) : Prop :=
  ∃ rel hist context, h.filepathRel tm.SourcePath src = .ok rel ∧
    tm.prepareContext h hist = .ok context ∧
    tm.prepareTargetFilename h context (h.filepathJoin tm.TargetPath rel) = .ok dst

/-- The entries of a walk that are not directories: the files. -/
def Entry.isFile (e : Entry) : Bool :=
  match e.info with
  | some info => !info.isDir
  | none => false

/-! ## A small concrete host

An in-memory host for running the code on concrete inputs: slash-separated clean
paths, regular expressions made of literal characters, `.`, a leading `^` and a
trailing `$`, and template texts whose only actions print a string field `.ns.key` of
the context. Inputs outside this fragment are not supported by it. -/

/-- The function `filepath.Join` on two clean slash-separated paths. -/
def fixJoin (a b : String) : String :=
  if b = "." then a else if a = "." then b else a ++ "/" ++ b

/-- The function `filepath.Rel` for a target that is the base or lies under it. -/
def fixRel (base targ : String) : Except GoErr String :=
  if targ = base then .ok "."
  else if (base ++ "/").data.isPrefixOf targ.data then
    .ok ⟨targ.data.drop (base.data.length + 1)⟩
  else .error (.other ("Rel: can't make " ++ targ ++ " relative to " ++ base))

/-- The function `filepath.Dir` on a slash-separated path. -/
def fixDir (p : String) : String :=
  match p.data.reverse.dropWhile (fun c => c != '/') with
  | [] => "."
  | _ :: rest => if rest.isEmpty then "/" else ⟨rest.reverse⟩

/-- The function `filepath.Base` on a clean slash-separated path. -/
def fixBase (p : String) : String :=
  ⟨(p.data.reverse.takeWhile (fun c => c != '/')).reverse⟩

/-- Adds an item in front of the parsed rest of a pattern. -/
def rxCons (item : Option Char) :
    Option (List (Option Char) × Bool) → Option (List (Option Char) × Bool)
  | none => none
  | some (items, e) => some (item :: items, e)

/-- The body of a pattern of the fragment: its items (`none` is `.`, any character but a
newline) and whether it ends with the anchor `$`; `escaped` tells that the character
before was a backslash. -/
def rxBody : Bool → List Char → Option (List (Option Char) × Bool)
  | false, [] => some ([], false)
  | true, [] => none
  | true, d :: rest => if d.isAlphanum then none else rxCons (some d) (rxBody false rest)
  | false, c :: rest =>
    if c = '$' then (if rest.isEmpty then some ([], true) else none)
    else if c = '\\' then rxBody true rest
    else if c = '.' then rxCons none (rxBody false rest)
    else if "^*+?()[]\x7b\x7d|".data.contains c then none
    else rxCons (some c) (rxBody false rest)

/-- Matching of the items at the start of a text: the rest of the text after the match. -/
def rxHere : List (Option Char) → List Char → Option (List Char)
  | [], text => some text
  | _ :: _, [] => none
  | none :: items, c :: text => if c = '\n' then none else rxHere items text
  | some d :: items, c :: text => if c = d then rxHere items text else none

/-- Whether the items match at some position of the text (at its end only, for `atEnd`). -/
def rxSearch (items : List (Option Char)) (atEnd : Bool) : List Char → Bool
  | [] =>
    match rxHere items [] with
    | some _ => true
    | none => false
  | c :: text =>
    (match rxHere items (c :: text) with
     | some rest => !atEnd || rest.isEmpty
     | none => false) || rxSearch items atEnd text

/-- The functions `regexp.Compile` and `MatchString` on the fragment. -/
def fixRegexp (pat : String) : Option (String → Bool) :=
  let anchored := pat.data.head? = some '^'
  let body := if anchored then pat.data.drop 1 else pat.data
  match rxBody false body with
  | none => none
  | some (items, atEnd) =>
    some (fun s =>
      if anchored then
        match rxHere items s.data with
        | some rest => !atEnd || rest.isEmpty
        | none => false
      else rxSearch items atEnd s.data)

/-- Whether `pat` occurs in `text`. -/
def hasSub (pat : List Char) : List Char → Bool
  | [] => pat.isEmpty
  | c :: cs => pat.isPrefixOf (c :: cs) || hasSub pat cs

/-- A piece of a template text of the fragment: a literal character, or an action that
prints the field `.ns.key` of the context. -/
inductive TplSeg where
  | lit (c : Char)
  | field (ns key : String)

/-- The place of the scanner of template texts: in plain text, after one opening brace,
after two (a dot is due), in the first name, in the second name, after one closing
brace. -/
inductive ScanState where
  | text
  | brace
  | dot
  | ns (acc : List Char)
  | key (ns : List Char) (acc : List Char)
  | close (ns key : List Char)

/-- Adds a piece in front of the scanned rest of a template text. -/
def tplCons (seg : TplSeg) : Option (List TplSeg) → Option (List TplSeg)
  | none => none
  | some segs => some (seg :: segs)

/-- The pieces of a template text whose actions all have the form of a field chain of two
names between double braces; `none` for any other text. -/
def tplScan : ScanState → List Char → Option (List TplSeg)
  | .text, [] => some []
  | .text, c :: cs =>
    if c = '\x7b' then tplScan .brace cs else tplCons (.lit c) (tplScan .text cs)
  | .brace, [] => some [.lit '\x7b']
  | .brace, c :: cs =>
    if c = '\x7b' then tplScan .dot cs
    else tplCons (.lit '\x7b') (tplCons (.lit c) (tplScan .text cs))
  | .dot, [] => none
  | .dot, c :: cs => if c = '.' then tplScan (.ns []) cs else none
  | .ns _, [] => none
  | .ns acc, c :: cs =>
    if c = '.' then (if acc.isEmpty then none else tplScan (.key acc.reverse []) cs)
    else if c.isAlphanum || c = '_' then tplScan (.ns (c :: acc)) cs
    else none
  | .key _ _, [] => none
  | .key ns acc, c :: cs =>
    if c = '\x7d' then (if acc.isEmpty then none else tplScan (.close ns acc.reverse) cs)
    else if c.isAlphanum || c = '_' then tplScan (.key ns (c :: acc)) cs
    else none
  | .close _ _, [] => none
  | .close ns key, c :: cs =>
    if c = '\x7d' then tplCons (.field ⟨ns⟩ ⟨key⟩) (tplScan .text cs) else none

/-- Execution of the pieces of a template against a context: a field that holds a string
prints it; any other field is outside the fragment and reported as an error. -/
def tplExec (context : Context) : List TplSeg → String × Option GoErr
  | [] => ("", none)
  | .lit c :: rest =>
    let r := tplExec context rest
    (String.singleton c ++ r.1, r.2)
  | .field ns key :: rest =>
    match (context.get ns).bind (fun m => m.get key) with
    | some (.str v) =>
      let r := tplExec context rest
      (v ++ r.1, r.2)
    | _ => ("", some (.other ("field ." ++ ns ++ "." ++ key ++ " is outside the fragment")))

/-- Template parsing on the fragment: a text without `{{` is a template that writes the
text; a text with `{{` and no `}}` has an unclosed action; a text whose actions all print
a field `.ns.key` is a template that prints those fields between its literal parts. -/
def fixTemplateParse (text : String) : Except GoErr (Context → String × Option GoErr) :=
  if !hasSub "\x7b\x7b".data text.data then .ok (fun _ => (text, none))
  else if !hasSub "\x7d\x7d".data text.data then .error (.other "unclosed action")
  else
    match tplScan .text text.data with
    | some segs => .ok (fun context => tplExec context segs)
    | none => .error (.other "actions are outside the fragment")

/-- The data of a concrete host. -/
structure Fixture where
  environ : List String
  /-- The path of the tree that can be walked, and the tree. -/
  root : String
  tree : Node
  /-- The regular files, with their content. -/
  files : GoMap String
  /-- The directories that exist at the start. -/
  dirs : List String
  /-- The parsed form of the YAML documents. -/
  yaml : String → Except GoErr (GoMap Val)

/-- Whether a successful `MkdirAll` in the history has created the directory `p`. -/
def madeDir (p : String) : List Effect → Bool
  | [] => false
  | .mkdirAll q :: rest => q = p || (p ++ "/").data.isPrefixOf q.data || madeDir p rest
  | _ :: rest => madeDir p rest

/-- The concrete host of a fixture: directory creation, file creation and writes always
succeed. -/
def Fixture.host (fx : Fixture) : Host where
  environ := fx.environ
  regexpCompile := fixRegexp
  templateParse := fixTemplateParse
  yamlUnmarshal := fx.yaml
  yamlUnmarshalConfig := fun _ => .ok Config.zero
  filepathJoin := fixJoin
  filepathRel := fixRel
  filepathDir := fixDir
  filepathBase := fixBase
  filepathIsAbs := fun p => p.data.head? = some '/'
  lstatTree := fun _ p => if p = fx.root then fx.tree else .broken (.notExist ("lstat " ++ p))
  stat := fun hist p =>
    match fx.files.get p with
    | some _ => .ok true
    | none =>
      if fx.dirs.contains p || madeDir p hist then .ok false
      else .error (.notExist ("stat " ++ p))
  osOpen := fun _ p =>
    match fx.files.get p with
    | some _ => none
    | none => some (.notExist ("open " ++ p))
  readFile := fun _ p =>
    match fx.files.get p with
    | some data => .ok data
    | none => .error (.notExist ("open " ++ p))
  mkdirAll := fun _ _ => none
  create := fun _ _ => none
  write := fun _ _ _ => none


/-! ## Concrete inputs -/

/-- A configuration with the given suffix, filename flag, excludes and includes, and no
data. -/
def cfg (suffix : String) (processFilename : Bool) (excludes includes : List String) : Config :=
  ⟨[], [], ⟨suffix, processFilename, excludes, includes⟩⟩

/-- A source directory `src` with the files `a.log` and `debug.log`, the template `app.conf.tmpl`
and the empty directory `d`; the environment has the entry `A=b=c`. -/
def fxTree : Fixture where
  environ := ["A=b=c"]
  root := "src"
  tree := .dir none [("a.log", .file), ("app.conf.tmpl", .file), ("d", .dir none []),
    ("debug.log", .file)]
  files := [("src/a.log", "hello"), ("src/app.conf.tmpl", "user=alice"), ("src/debug.log", "dbg")]
  dirs := ["src", "src/d"]
  yaml := fun _ => .ok []

/-- A source directory `src` that does not exist. -/
def fxMissing : Fixture where
  environ := []
  root := "src"
  tree := .broken (.notExist "lstat src: no such file or directory")
  files := []
  dirs := []
  yaml := fun _ => .ok []

/-- A target directory `out` that exists and holds the file `old.txt`. -/
def fxTarget : Fixture where
  environ := []
  root := "out"
  tree := .dir none [("old.txt", .file)]
  files := [("out/old.txt", "old")]
  dirs := ["src", "out"]
  yaml := fun _ => .ok []

/-- A source directory `src` whose only file, `bad.tmpl`, has an unclosed action. -/
def fxBadTemplate : Fixture where
  environ := []
  root := "src"
  tree := .dir none [("bad.tmpl", .file)]
  files := [("src/bad.tmpl", "user=\x7b\x7b.Data.user")]
  dirs := ["src"]
  yaml := fun _ => .ok []

/-- A source directory `src` with the plain file `a` and the template `a.tmpl`. -/
def fxCollide : Fixture where
  environ := []
  root := "src"
  tree := .dir none [("a", .file), ("a.tmpl", .file)]
  files := [("src/a", "PLAIN"), ("src/a.tmpl", "TEMPLATE")]
  dirs := ["src"]
  yaml := fun _ => .ok []

/-- A source directory `src` whose only file has a name with an action,
`{{.Env.USER}}.txt`; the environment has the entry `USER=tester`. -/
def fxNamed : Fixture where
  environ := ["USER=tester"]
  root := "src"
  tree := .dir none [("\x7b\x7b.Env.USER\x7d\x7d.txt", .file)]
  files := [("src/\x7b\x7b.Env.USER\x7d\x7d.txt", "hi")]
  dirs := ["src"]
  yaml := fun _ => .ok []

/-- A configuration file `conf.yml` with the include `inc.yml` beside it. -/
def fxInclude : Fixture where
  environ := ["HOME=/root", "USER=tester"]
  root := "src"
  tree := .dir none []
  files := [("inc.yml", "k: v")]
  dirs := ["src"]
  yaml := fun text => if text = "k: v" then .ok [("k", .str "v")] else .error (.other "yaml")

/-- A model whose inline data has the namespaces `Data` and `inc` and whose includes have
the one namespace `inc`. -/
def tmInclude : TemplateModel :=
  ⟨"src", "out", "conf.yml",
    ⟨[("Data", [("name", .str "acme")]), ("inc", [("k", .str "inline")])], [("inc", "inc.yml")],
      ⟨".tmpl", false, [], []⟩⟩, false⟩

/-! ## Theorems -/

/-! ### The suffix strip of `prepareTargetFilename` -/

theorem sliceOff_append (p s : String) (hs : stringsHasSuffix p s = true) :
    sliceOff p s ++ s = p := by
  apply String.ext
  have hsuf : s.data <:+ p.data := by
    simpa [stringsHasSuffix] using hs
  obtain ⟨t, ht⟩ := hsuf
  simp [sliceOff, ← ht]

/-- C9: with filename templating disabled, `prepareTargetFilename` returns no error and a path
`r` with `r ++ s = p` when `p` ends with the suffix marker `s`, and `r = p` otherwise; an empty
marker leaves `p` unchanged. -/
theorem prepareTargetFilename_strips_suffix (h : Host) (tm : TemplateModel) (context : Context)
    (p : String) (hP : tm.Config.Templates.ProcessFilename = false) :
    ∃ r, tm.prepareTargetFilename h context p = .ok r ∧
      (stringsHasSuffix p tm.Config.Templates.Suffix = true → r ++ tm.Config.Templates.Suffix = p) ∧
      (stringsHasSuffix p tm.Config.Templates.Suffix = false → r = p) ∧
      (tm.Config.Templates.Suffix = "" → r = p) := by
  unfold TemplateModel.prepareTargetFilename
  simp only [hP]
  by_cases hs : stringsHasSuffix p tm.Config.Templates.Suffix = true
  · refine ⟨sliceOff p tm.Config.Templates.Suffix, by simp [hs], fun _ => sliceOff_append p _ hs,
      fun hf => by simp [hs] at hf, fun he => ?_⟩
    have := sliceOff_append p _ hs
    rw [he] at this ⊢
    simpa using this
  · refine ⟨p, by simp [hs], fun ht => absurd ht hs, fun _ => rfl, fun _ => rfl⟩

theorem prepareTargetFilename_strips_suffix_witness :
    (⟨"src", "out", "", cfg ".tmpl" false [] [], false⟩ : TemplateModel).Config.Templates.ProcessFilename
        = false ∧
      ∃ r, (⟨"src", "out", "", cfg ".tmpl" false [] [], false⟩ : TemplateModel).prepareTargetFilename
          fxTree.host [] "out/app.conf.tmpl" = .ok r ∧
        (stringsHasSuffix "out/app.conf.tmpl" ".tmpl" = true → r ++ ".tmpl" = "out/app.conf.tmpl") ∧
        (stringsHasSuffix "out/app.conf.tmpl" ".tmpl" = false → r = "out/app.conf.tmpl") ∧
        ((".tmpl" : String) = "" → r = "out/app.conf.tmpl") :=
  ⟨rfl, prepareTargetFilename_strips_suffix fxTree.host
    ⟨"src", "out", "", cfg ".tmpl" false [] [], false⟩ [] "out/app.conf.tmpl" rfl⟩

/-! ### The environment map -/

/-- C4: on the environment entry `A=b=c` the function `envToMap` stores `b` under `A`, not the
whole value `b=c`, and the context built by `prepareContext` has `Env["A"]` equal to `b`. -/
theorem envToMap_cuts_value_at_second_equals :
    stringsSplit "A=b=c" '=' = ["A", "b", "c"] ∧
      envToMap fxTree.host = .ok [("A", "b")] ∧
      (⟨"src", "out", "", cfg ".tmpl" false [] [], false⟩ : TemplateModel).prepareContext
        fxTree.host [] = .ok [("Env", [("A", Val.str "b")])] :=
  ⟨by decide, by decide, rfl⟩

/-! ### The check of the target directory -/

/-- When `os.Stat(target)` succeeds its error is nil, `os.IsExist(nil)` is false, and the
walk of the target is not made. -/
theorem checkTargetEmpty_of_stat_ok (h : Host) (target : String) (b : Bool)
    (hs : h.stat [] target = .ok b) : checkTargetEmpty h target = .ok () := by
  simp [checkTargetEmpty, hs, osIsExist]

/-- C3: with `stopIfNotEmpty = true` and a target directory `out` that exists and holds the
file `old.txt`, `NewTemplateModel` returns a model and no error. -/
theorem NewTemplateModel_accepts_non_empty_target :
    fxTarget.host.stat [] "out" = .ok false ∧
      fxTarget.host.lstatTree [] "out" = .dir none [("old.txt", .file)] ∧
      NewTemplateModel fxTarget.host "src" "out" "" true
        = .ok ⟨"src", "out", "", Config.zero, true⟩ :=
  ⟨rfl, rfl, rfl⟩

/-! ### Walk errors -/

/-- C10: when the source root does not exist, the walk calls the callback with nil file
information; with no exclude pattern the entry is not skipped and `info.IsDir()` panics. -/
theorem Generate_panics_on_missing_source :
    (⟨"src", "out", "", cfg ".tmpl" false [] [], false⟩ : TemplateModel).Generate fxMissing.host
      = (.panic "runtime error: invalid memory address or nil pointer dereference",
          [.mkdirAll "out"]) := by
  decide

/-! ### Include patterns without exclude patterns -/

/-- C1: with the include list `["\\.txt$"]` and an empty exclude list, the file `src/a.log`,
matched by no include pattern, is processed all the same: the run creates and writes
`out/a.log`. -/
theorem Generate_ignores_includes_without_excludes :
    (⟨"src", "out", "", cfg ".tmpl" false [] ["\\.txt$"], false⟩ : TemplateModel).isIncluded
        fxTree.host "src/a.log" = .ok false ∧
      (⟨"src", "out", "", cfg ".tmpl" false [] ["\\.txt$"], false⟩ : TemplateModel).Generate
        fxTree.host
        = (.ok (),
          [.mkdirAll "out",
           .create "src/a.log" "out/a.log", .write "out/a.log" "hello",
           .print "src/app.conf.tmpl --> out/app.conf\n",
           .create "src/app.conf.tmpl" "out/app.conf", .write "out/app.conf" "user=alice",
           .create "src/debug.log" "out/debug.log", .write "out/debug.log" "dbg"]) :=
  ⟨by decide, by decide⟩

/-! ### The walk as a run over its entries -/

theorem runEntries_append (walkFn : WalkFunc) (l₁ l₂ : List Entry) (hist : List Effect) :
    runEntries walkFn (l₁ ++ l₂) hist =
      match runEntries walkFn l₁ hist with
      | (.ok (), hist1) => runEntries walkFn l₂ hist1
      | r => r := by
  induction l₁ generalizing hist with
  | nil => simp [runEntries]
  | cons e rest ih =>
    simp only [List.cons_append, runEntries]
    rcases hr : walkFn e.path e.info e.err hist with ⟨r, hist1⟩
    cases r with
    | ok u => cases u; simp [ih]
    | err e => simp
    | panic m => simp

mutual
theorem walk_eq_runEntries (h : Host) (walkFn : WalkFunc) :
    ∀ (node : Node) (path name : String) (hist : List Effect),
      walk h walkFn path name node hist
        = runEntries walkFn (walkEntries h path name node) hist
  | .broken e, path, name, hist => by
    simp only [walk, walkEntries, runEntries]
    rcases hr : walkFn path none (some e) hist with ⟨r, hist1⟩
    cases r with
    | ok u => cases u; rfl
    | err e => rfl
    | panic m => rfl
  | .file, path, name, hist => by
    simp only [walk, walkEntries, runEntries]
    rcases hr : walkFn path (some ⟨name, false⟩) none hist with ⟨r, hist1⟩
    cases r with
    | ok u => cases u; rfl
    | err e => rfl
    | panic m => rfl
  | .dir readErr children, path, name, hist => by
    simp only [walk, walkEntries, runEntries]
    rcases hr : walkFn path (some ⟨name, true⟩) readErr hist with ⟨r, hist1⟩
    cases r with
    | ok u =>
      cases u
      by_cases hre : readErr.isSome = true
      · simp [hre, runEntries]
      · simp [hre, walkChildren_eq_runEntries h walkFn children path hist1]
    | err e => rfl
    | panic m => rfl
theorem walkChildren_eq_runEntries (h : Host) (walkFn : WalkFunc) :
    ∀ (children : List (String × Node)) (path : String) (hist : List Effect),
      walkChildren h walkFn path children hist
        = runEntries walkFn (childrenEntries h path children) hist
  | [], path, hist => by simp [walkChildren, childrenEntries, runEntries]
  | (name, node) :: rest, path, hist => by
    simp only [walkChildren, childrenEntries, runEntries_append]
    rw [walk_eq_runEntries h walkFn node (h.filepathJoin path name) name hist]
    rcases hr : runEntries walkFn (walkEntries h (h.filepathJoin path name) name node) hist
      with ⟨r, hist1⟩
    cases r with
    | ok u => cases u; simp [walkChildren_eq_runEntries h walkFn rest path hist1]
    | err e => rfl
    | panic m => rfl
end

/-! ### The effects of one call of the walk callback -/

theorem ensureDir_history (h : Host) (d : String) (hist : List Effect) :
    (ensureDir h d hist).2 = hist ∨
      ((ensureDir h d hist).1 = .ok () ∧ (ensureDir h d hist).2 = hist ++ [.mkdirAll d]) := by
  unfold ensureDir
  dsimp only
  split
  · split
    · exact Or.inl rfl
    · exact Or.inr ⟨rfl, rfl⟩
  · exact Or.inl rfl

theorem processTemplate_history (h : Host) (c : genConfig) (hist : List Effect) :
    ∀ e ∈ (c.processTemplate h hist).2,
      e ∈ hist ∨ ∀ src dst, e = Effect.create src dst → src = c.source := by
  unfold genConfig.processTemplate
  dsimp only
  intro e he
  split at he
  · simp only [List.mem_append, List.mem_singleton] at he; aesop
  · split at he
    · simp only [List.mem_append, List.mem_singleton] at he; aesop
    · split at he
      · simp only [List.mem_append, List.mem_singleton] at he; aesop
      · split at he
        · simp only [List.mem_append, List.mem_singleton] at he; aesop
        · simp only [List.mem_append, List.mem_singleton] at he; aesop

theorem fsCopy_history (h : Host) (src dst : String) (hist : List Effect) :
    ∀ e ∈ (fsCopy h src dst hist).2,
      e ∈ hist ∨ ∀ src' dst', e = Effect.create src' dst' → src' = src := by
  unfold fsCopy
  intro e he
  split at he
  · exact Or.inl he
  · split at he
    · exact Or.inl he
    · split at he
      · exact Or.inl he
      · split at he
        · exact Or.inl he
        · dsimp only at he
          split at he
          · simp only [List.mem_append, List.mem_singleton] at he; aesop
          · split at he
            · simp only [List.mem_append, List.mem_singleton] at he; aesop
            · simp only [List.mem_append, List.mem_singleton] at he; aesop

theorem walkFn_history (h : Host) (tm : TemplateModel) (mode : Bool) (relSource : String)
    (info : Option FileInfo) (err : Option GoErr) (hist : List Effect) :
    ∀ e ∈ (tm.walkFn h mode relSource info err hist).2,
      e ∈ hist ∨ (tm.skip h mode relSource = .ok false ∧
        ∀ src dst, e = Effect.create src dst → src = relSource) := by
  unfold TemplateModel.walkFn
  dsimp only
  intro e he
  split at he
  · exact Or.inl he
  · exact Or.inl he
  · exact Or.inl he
  · next hskip =>
    split at he
    · exact Or.inl he
    · split at he
      · exact Or.inl he
      · split at he
        · exact Or.inl he
        · split at he
          · exact Or.inl he
          · exact Or.inl he
          · next context _ =>
            split at he
            · exact Or.inl he
            · exact Or.inl he
            · next realTarget _ =>
              have hdir : ∀ e ∈ (ensureDir h (h.filepathDir realTarget) hist).2,
                  e ∈ hist ∨ ∀ src dst, e = Effect.create src dst → src = relSource := by
                intro e he
                rcases ensureDir_history h (h.filepathDir realTarget) hist with h1 | ⟨_, h1⟩
                · rw [h1] at he; exact Or.inl he
                · rw [h1] at he
                  simp only [List.mem_append, List.mem_singleton] at he
                  aesop
              split at he
              · next heq => rw [heq] at hdir; rcases hdir e he with h1 | h1
                            · exact Or.inl h1
                            · exact Or.inr ⟨hskip, h1⟩
              · next heq => rw [heq] at hdir; rcases hdir e he with h1 | h1
                            · exact Or.inl h1
                            · exact Or.inr ⟨hskip, h1⟩
              · next hist1 heq =>
                rw [heq] at hdir
                have hdir1 : ∀ e ∈ hist1,
                    e ∈ hist ∨ (tm.skip h mode relSource = .ok false ∧
                      ∀ src dst, e = Effect.create src dst → src = relSource) := by
                  intro e he
                  rcases hdir e he with h1 | h1
                  · exact Or.inl h1
                  · exact Or.inr ⟨hskip, h1⟩
                split at he
                · have hp := processTemplate_history h ⟨relSource, realTarget, context⟩ hist1
                  split at he
                  · next heq2 =>
                    rw [heq2] at hp
                    rcases hp e he with h1 | h1
                    · exact hdir1 e h1
                    · exact Or.inr ⟨hskip, h1⟩
                  · rcases hp e he with h1 | h1
                    · exact hdir1 e h1
                    · exact Or.inr ⟨hskip, h1⟩
                · have hp := fsCopy_history h relSource realTarget hist1
                  split at he
                  · next heq2 =>
                    rw [heq2] at hp
                    rcases hp e he with h1 | h1
                    · exact hdir1 e h1
                    · exact Or.inr ⟨hskip, h1⟩
                  · next heq2 =>
                    rw [heq2] at hp
                    rcases hp e he with h1 | h1
                    · exact hdir1 e h1
                    · exact Or.inr ⟨hskip, h1⟩
                  · next heq2 =>
                    rw [heq2] at hp
                    rcases hp e he with h1 | h1
                    · exact hdir1 e h1
                    · exact Or.inr ⟨hskip, h1⟩

/-! ### The filter -/

theorem matchAny_ok_true (h : Host) (pats : List String) (p : String)
    (hm : matchAny h pats p = .ok true) : ∃ pat ∈ pats, patternMatches h pat p = true := by
  induction pats with
  | nil => simp [matchAny] at hm
  | cons pat rest ih =>
    unfold matchAny at hm
    split at hm
    · simp at hm
    · next regex hc =>
      by_cases hr : regex p = true
      · exact ⟨pat, by simp, by simp [patternMatches, hc, hr]⟩
      · simp only [hr] at hm
        obtain ⟨q, hq, hqm⟩ := ih (by simpa using hm)
        exact ⟨q, by simp [hq], hqm⟩

theorem matchAny_ok_false (h : Host) (pats : List String) (p : String)
    (hm : matchAny h pats p = .ok false) : ∀ pat ∈ pats, patternMatches h pat p = false := by
  induction pats with
  | nil => simp
  | cons pat rest ih =>
    unfold matchAny at hm
    split at hm
    · simp at hm
    · next regex hc =>
      by_cases hr : regex p = true
      · simp [hr] at hm
      · simp only [hr] at hm
        intro q hq
        rcases List.mem_cons.mp hq with rfl | hq
        · simpa [patternMatches, hc] using hr
        · exact ih (by simpa using hm) q hq

theorem matchAny_of_compile (h : Host) (pats : List String) (p : String)
    (hc : ∀ pat ∈ pats, (h.regexpCompile pat).isSome = true) :
    matchAny h pats p = .ok (pats.any (fun pat => patternMatches h pat p)) := by
  induction pats with
  | nil => simp [matchAny]
  | cons pat rest ih =>
    have h1 := hc pat (by simp)
    have h2 := ih (fun q hq => hc q (by simp [hq]))
    unfold matchAny
    cases hcp : h.regexpCompile pat with
    | none => simp [hcp] at h1
    | some regex =>
      by_cases hr : regex p = true
      · simp [patternMatches, hcp, hr]
      · simp [patternMatches, hcp, hr, h2]

theorem runEntries_history (h : Host) (tm : TemplateModel) (mode : Bool) (entries : List Entry)
    (hist : List Effect) :
    ∀ e ∈ (runEntries (tm.walkFn h mode) entries hist).2,
      e ∈ hist ∨ ∃ ent ∈ entries, tm.skip h mode ent.path = .ok false ∧
        ∀ src dst, e = Effect.create src dst → src = ent.path := by
  induction entries generalizing hist with
  | nil => intro e he; exact Or.inl he
  | cons ent rest ih =>
    intro e he
    unfold runEntries at he
    have hw := walkFn_history h tm mode ent.path ent.info ent.err hist
    have key : ∀ e ∈ (tm.walkFn h mode ent.path ent.info ent.err hist).2,
        e ∈ hist ∨ ∃ ent' ∈ ent :: rest, tm.skip h mode ent'.path = .ok false ∧
          ∀ src dst, e = Effect.create src dst → src = ent'.path := by
      intro e he
      rcases hw e he with h1 | h1
      · exact Or.inl h1
      · exact Or.inr ⟨ent, by simp, h1⟩
    split at he
    · next hist1 heq =>
      rw [heq] at key
      rcases ih hist1 e he with h1 | ⟨ent', hmem, h1⟩
      · exact key e h1
      · exact Or.inr ⟨ent', by simp [hmem], h1⟩
    · exact key e he

theorem Generate_create_not_skipped (h : Host) (tm : TemplateModel) (src dst : String)
    (hc : Effect.create src dst ∈ (tm.Generate h).2) :
    tm.skip h tm.excludeMode src = .ok false := by
  have hadv : Effect.create src dst ∉ tm.advisory := by
    unfold TemplateModel.advisory
    split <;> simp
  unfold TemplateModel.Generate at hc
  dsimp only at hc
  split at hc
  · exact absurd hc hadv
  · unfold filepathWalk at hc
    rw [walk_eq_runEntries] at hc
    rcases runEntries_history h tm _ _ _ _ hc with h1 | ⟨ent, _, hs, h1⟩
    · simp only [List.mem_append, List.mem_singleton] at h1
      rcases h1 with h1 | h1
      · exact absurd h1 hadv
      · simp at h1
    · rw [h1 src dst rfl]; exact hs

theorem includeLoop_withExcludes (h : Host) (tm : TemplateModel) (excludes : List String)
    (hist : List Effect) (l : List (String × String)) (c : Context) :
    includeLoop h (tm.withExcludes excludes) hist l c = includeLoop h tm hist l c := by
  induction l generalizing c with
  | nil => rfl
  | cons kv rest ih =>
    obtain ⟨k, v⟩ := kv
    unfold includeLoop
    have hp : includePath h (tm.withExcludes excludes) v = includePath h tm v := rfl
    rw [hp]
    split
    · rfl
    · rfl
    · exact ih _

theorem prepareContext_withExcludes (h : Host) (tm : TemplateModel) (excludes : List String)
    (hist : List Effect) :
    (tm.withExcludes excludes).prepareContext h hist = tm.prepareContext h hist := by
  unfold TemplateModel.prepareContext
  split
  · rfl
  · rfl
  · exact includeLoop_withExcludes h tm excludes hist _ _

theorem walkFn_withExcludes (h : Host) (tm : TemplateModel) (excludes : List String) :
    (tm.withExcludes excludes).walkFn h false = tm.walkFn h false := by
  funext relSource info err hist
  unfold TemplateModel.walkFn
  rw [prepareContext_withExcludes]
  rfl

/-- With an empty exclude list no entry is skipped, whatever the include list is. -/
theorem skip_of_no_excludes (h : Host) (tm : TemplateModel) (p : String)
    (hE : tm.Config.Templates.Excludes = []) : tm.skip h tm.excludeMode p = .ok false := by
  simp [TemplateModel.skip, TemplateModel.excludeMode, TemplateModel.isExcluded, hE, matchAny]

theorem excludeMode_of_both (tm : TemplateModel) (hE : tm.Config.Templates.Excludes ≠ [])
    (hI : tm.Config.Templates.Includes ≠ []) : tm.excludeMode = false := by
  have h1 : 0 < tm.Config.Templates.Excludes.length := List.length_pos.mpr hE
  have h2 : 0 < tm.Config.Templates.Includes.length := List.length_pos.mpr hI
  simp [TemplateModel.excludeMode, h1, h2]

theorem excludeMode_of_no_includes (tm : TemplateModel)
    (hI : tm.Config.Templates.Includes = []) : tm.excludeMode = true := by
  simp [TemplateModel.excludeMode, hI]

theorem skip_include_mode (h : Host) (tm : TemplateModel) (p : String) :
    tm.skip h false p = .ok false ↔ tm.isIncluded h p = .ok true := by
  unfold TemplateModel.skip
  cases hi : tm.isIncluded h p with
  | ok b => cases b <;> simp
  | err e => simp
  | panic m => simp

/-- C8: when both lists are non-empty the filter decision of `Generate` is the include-mode
decision alone: an entry is processed exactly when `isIncluded` holds of its path, that is
(for patterns that compile) when at least one include pattern matches it; every file the
run creates comes from such an entry; and replacing the exclude list by any other
non-empty list does not change the run. -/
theorem Generate_both_lists_uses_includes_only (h : Host) (tm : TemplateModel)
    (hE : tm.Config.Templates.Excludes ≠ []) (hI : tm.Config.Templates.Includes ≠ []) :
    (∀ p, tm.skip h tm.excludeMode p = .ok false ↔ tm.isIncluded h p = .ok true) ∧
      (∀ p, tm.skip h tm.excludeMode p = .ok false →
        ∃ pat ∈ tm.Config.Templates.Includes, patternMatches h pat p = true) ∧
      ((∀ pat ∈ tm.Config.Templates.Includes, (h.regexpCompile pat).isSome = true) →
        ∀ p, tm.skip h tm.excludeMode p = .ok false ↔
          ∃ pat ∈ tm.Config.Templates.Includes, patternMatches h pat p = true) ∧
      (∀ src dst, Effect.create src dst ∈ (tm.Generate h).2 →
        ∃ pat ∈ tm.Config.Templates.Includes, patternMatches h pat src = true) ∧
      (∀ excludes, excludes ≠ [] → (tm.withExcludes excludes).Generate h = tm.Generate h) := by
  have hmode := excludeMode_of_both tm hE hI
  have hto : ∀ p, tm.skip h tm.excludeMode p = .ok false →
      ∃ pat ∈ tm.Config.Templates.Includes, patternMatches h pat p = true := by
    intro p hp
    rw [hmode] at hp
    exact matchAny_ok_true h _ p ((skip_include_mode h tm p).mp hp)
  refine ⟨fun p => by rw [hmode]; exact skip_include_mode h tm p, hto, ?_, ?_, ?_⟩
  · intro hc p
    refine ⟨hto p, ?_⟩
    rintro ⟨pat, hpat, hm⟩
    rw [hmode, skip_include_mode]
    unfold TemplateModel.isIncluded
    rw [matchAny_of_compile h _ p hc]
    congr 1
    simp only [List.any_eq_true]
    exact ⟨pat, hpat, hm⟩
  · intro src dst hc
    exact hto src (Generate_create_not_skipped h tm src dst hc)
  · intro excludes hne
    have hmode' : (tm.withExcludes excludes).excludeMode = false :=
      excludeMode_of_both _ hne hI
    have hadv : (tm.withExcludes excludes).advisory = tm.advisory := by
      simp [TemplateModel.advisory, hmode, hmode']
    unfold TemplateModel.Generate
    rw [hmode, hmode', hadv]
    dsimp only
    rw [walkFn_withExcludes]
    rfl

theorem Generate_both_lists_uses_includes_only_witness :
    (cfg ".tmpl" false ["^src/a"] ["\\.log$"]).Templates.Excludes ≠ [] ∧
      (cfg ".tmpl" false ["^src/a"] ["\\.log$"]).Templates.Includes ≠ [] ∧
      (∀ src dst, Effect.create src dst ∈
          ((⟨"src", "out", "", cfg ".tmpl" false ["^src/a"] ["\\.log$"], false⟩ :
            TemplateModel).Generate fxTree.host).2 →
        ∃ pat ∈ (cfg ".tmpl" false ["^src/a"] ["\\.log$"]).Templates.Includes,
          patternMatches fxTree.host pat src = true) :=
  ⟨by decide, by decide,
    (Generate_both_lists_uses_includes_only fxTree.host
      ⟨"src", "out", "", cfg ".tmpl" false ["^src/a"] ["\\.log$"], false⟩
      (by decide) (by decide)).2.2.2.1⟩

/-! ### Exclude patterns -/

/-- C2, as stated, fails: the exclude pattern `^debug` matches the path `debug.log` relative to
the source root `src`, but the run creates `out/debug.log`, because the pattern is tested
against the walk path `src/debug.log`. -/
theorem Generate_exclude_tests_walk_path :
    fixRel "src" "src/debug.log" = .ok "debug.log" ∧
      patternMatches fxTree.host "^debug" "debug.log" = true ∧
      patternMatches fxTree.host "^debug" "src/debug.log" = false ∧
      Effect.create "src/debug.log" "out/debug.log" ∈
        ((⟨"src", "out", "", cfg ".tmpl" false ["^debug"] [], false⟩ :
          TemplateModel).Generate fxTree.host).2 :=
  ⟨rfl, by decide, by decide, by decide⟩

/-- C2, amended: with an empty include list, an entry whose walk path (the path
`filepath.Walk` reports, the source root joined with the relative path) is matched by at
least one exclude pattern is never processed: the callback leaves the effects unchanged on
it, and the run creates no file for it. -/
theorem Generate_excluded_walk_path_not_created (h : Host) (tm : TemplateModel) (src : String)
    (hI : tm.Config.Templates.Includes = [])
    (hm : ∃ pat ∈ tm.Config.Templates.Excludes, patternMatches h pat src = true) :
    (∀ dst, Effect.create src dst ∉ (tm.Generate h).2) ∧
      (∀ info err hist, (tm.walkFn h tm.excludeMode src info err hist).2 = hist) := by
  have hmode := excludeMode_of_no_includes tm hI
  have hskip : tm.skip h tm.excludeMode src ≠ .ok false := by
    intro hs
    rw [hmode] at hs
    obtain ⟨pat, hpat, hpm⟩ := hm
    have := matchAny_ok_false h _ src (by simpa [TemplateModel.skip, TemplateModel.isExcluded] using hs)
      pat hpat
    rw [this] at hpm
    exact Bool.noConfusion hpm
  refine ⟨fun dst hc => hskip (Generate_create_not_skipped h tm src dst hc), ?_⟩
  intro info err hist
  unfold TemplateModel.walkFn
  dsimp only
  split
  · rfl
  · rfl
  · rfl
  · next hs => exact absurd hs hskip

theorem Generate_excluded_walk_path_not_created_witness :
    (cfg ".tmpl" false ["\\.log$"] []).Templates.Includes = [] ∧
      (∃ pat ∈ (cfg ".tmpl" false ["\\.log$"] []).Templates.Excludes,
        patternMatches fxTree.host pat "src/debug.log" = true) ∧
      (∀ dst, Effect.create "src/debug.log" dst ∉
        ((⟨"src", "out", "", cfg ".tmpl" false ["\\.log$"] [], false⟩ :
          TemplateModel).Generate fxTree.host).2) :=
  ⟨rfl, ⟨"\\.log$", by decide, by decide⟩,
    (Generate_excluded_walk_path_not_created fxTree.host
      ⟨"src", "out", "", cfg ".tmpl" false ["\\.log$"] [], false⟩ "src/debug.log" rfl
      ⟨"\\.log$", by decide, by decide⟩).1⟩

/-! ### The render context -/

theorem GoMap.get_set_self {α : Type} (m : GoMap α) (k : String) (v : α) :
    (m.set k v).get k = some v := by
  induction m with
  | nil => simp [GoMap.set, GoMap.get]
  | cons kv rest ih =>
    obtain ⟨k', v'⟩ := kv
    by_cases hk : k' = k
    · simp [GoMap.set, GoMap.get, hk]
    · simp [GoMap.set, GoMap.get, hk, ih]

theorem GoMap.get_set_ne {α : Type} (m : GoMap α) (k k' : String) (v : α) (hne : k' ≠ k) :
    (m.set k v).get k' = m.get k' := by
  induction m with
  | nil => simp [GoMap.set, GoMap.get, Ne.symm hne]
  | cons kv rest ih =>
    obtain ⟨k₀, v₀⟩ := kv
    by_cases hk : k₀ = k
    · subst hk
      simp [GoMap.set, GoMap.get, Ne.symm hne]
    · by_cases hk' : k₀ = k'
      · subst hk'
        simp [GoMap.set, GoMap.get, hk]
      · simp [GoMap.set, GoMap.get, hk, hk', ih]

theorem GoMap.get_eq_none_iff {α : Type} (m : GoMap α) (k : String) :
    m.get k = none ↔ k ∉ m.keys := by
  induction m with
  | nil => simp [GoMap.get, GoMap.keys]
  | cons kv rest ih =>
    obtain ⟨k', v'⟩ := kv
    by_cases hk : k' = k
    · simp [GoMap.get, GoMap.keys, hk]
    · have ih' : GoMap.get rest k = none ↔ k ∉ List.map Prod.fst rest := ih
      simp [GoMap.get, GoMap.keys, hk, ih', Ne.symm hk]

theorem GoMap.mem_of_get {α : Type} (m : GoMap α) (k : String) (v : α)
    (hg : m.get k = some v) : (k, v) ∈ m := by
  induction m with
  | nil => simp [GoMap.get] at hg
  | cons kv rest ih =>
    obtain ⟨k', v'⟩ := kv
    by_cases hkk : k' = k
    · simp only [GoMap.get, hkk, if_true, Option.some.injEq] at hg
      simp [hkk, hg]
    · simp only [GoMap.get, hkk, if_false] at hg
      exact List.mem_cons_of_mem _ (ih hg)

theorem GoMap.mem_keys_iff {α : Type} (m : GoMap α) (k : String) :
    k ∈ m.keys ↔ ∃ v, m.get k = some v := by
  have := GoMap.get_eq_none_iff m k
  cases hg : m.get k with
  | none => simp [hg] at this; simp [this]
  | some v => simp [hg] at this; simp [this]

/-- The entries of `l` assigned to `c` one after the other (`for k, v := range l { c[k] = v }`),
for a well-formed `l`: the value of `l` where it has the key, that of `c` elsewhere. -/
theorem GoMap.get_foldl_set {α β : Type} (f : β → α) (l : GoMap β) (hl : l.WF) (c : GoMap α)
    (k : String) :
    (l.foldl (fun c kv => c.set kv.1 (f kv.2)) c).get k =
      match l.get k with
      | some v => some (f v)
      | none => c.get k := by
  induction l generalizing c with
  | nil => simp [GoMap.get]
  | cons kv rest ih =>
    obtain ⟨k₀, v₀⟩ := kv
    have hnd : k₀ ∉ GoMap.keys rest ∧ GoMap.WF rest := by
      simpa [GoMap.WF, GoMap.keys] using hl
    simp only [List.foldl_cons]
    rw [ih hnd.2]
    by_cases hk : k₀ = k
    · subst hk
      have hnone := (GoMap.get_eq_none_iff rest k₀).mpr hnd.1
      simp [hnone, GoMap.get, GoMap.get_set_self]
    · simp [GoMap.get, hk, GoMap.get_set_ne _ _ _ _ (Ne.symm hk)]

theorem splitChars_of_mem (sep : Char) (l : List Char) (hm : sep ∈ l) :
    ∃ p0 p1 rest, splitChars sep l = p0 :: p1 :: rest := by
  have hne : ∀ l : List Char, ∃ p ps, splitChars sep l = p :: ps := by
    intro l
    induction l with
    | nil => exact ⟨[], [], rfl⟩
    | cons c cs ih =>
      obtain ⟨p, ps, hp⟩ := ih
      by_cases hc : c = sep
      · exact ⟨[], splitChars sep cs, by simp [splitChars, hc]⟩
      · exact ⟨c :: p, ps, by simp [splitChars, hc, hp]⟩
  induction l with
  | nil => simp at hm
  | cons c cs ih =>
    by_cases hc : c = sep
    · obtain ⟨p, ps, hp⟩ := hne cs
      exact ⟨[], p, ps, by simp [splitChars, hc, hp]⟩
    · have hm' : sep ∈ cs := by
        rcases List.mem_cons.mp hm with h1 | h1
        · exact absurd h1.symm hc
        · exact h1
      obtain ⟨p0, p1, rest, hp⟩ := ih hm'
      exact ⟨c :: p0, p1, rest, by simp [splitChars, hc, hp]⟩

/-- On an environment whose entries all contain `=`, `envToMap` returns a map. -/
theorem envToMapLoop_ok (env : List String) (henv : ∀ v ∈ env, '=' ∈ v.data)
    (envMap : GoMap String) : ∃ m, envToMapLoop env envMap = .ok m := by
  induction env generalizing envMap with
  | nil => exact ⟨envMap, rfl⟩
  | cons v rest ih =>
    obtain ⟨p0, p1, ps, hp⟩ := splitChars_of_mem '=' v.data (henv v (by simp))
    unfold envToMapLoop
    simp only [stringsSplit, hp, List.map_cons]
    exact ih (fun w hw => henv w (by simp [hw])) _

theorem includeLoop_ok (h : Host) (tm : TemplateModel) (hist : List Effect)
    (l : List (String × String)) (c : Context)
    (hload : ∀ kv ∈ l, ∃ doc, includeDoc h tm hist kv.2 = some doc) :
    ∃ f : String → GoMap Val, (∀ kv ∈ l, includeDoc h tm hist kv.2 = some (f kv.2)) ∧
      includeLoop h tm hist l c = .ok (l.foldl (fun c kv => c.set kv.1 (f kv.2)) c) := by
  refine ⟨fun v => (includeDoc h tm hist v).getD [], ?_, ?_⟩
  · intro kv hkv
    obtain ⟨doc, hdoc⟩ := hload kv hkv
    simp [hdoc]
  · induction l generalizing c with
    | nil => rfl
    | cons kv rest ih =>
      obtain ⟨k, v⟩ := kv
      obtain ⟨doc, hdoc⟩ := hload (k, v) (by simp)
      have hread : readYamlConfig h hist (includePath h tm v) = .ok doc := by
        unfold includeDoc at hdoc
        split at hdoc
        · next d hd => rw [hd]; simpa using hdoc
        · simp at hdoc
      unfold includeLoop
      simp only [hread, List.foldl_cons]
      rw [ih _ (fun kv hkv => hload kv (by simp [hkv]))]
      simp [hdoc]

/-- C5: when every include loads (and the maps of the configuration and the environment are
well formed), `prepareContext` returns a context whose keys are `Env`, the keys of the
inline data and the keys of the includes, and whose value at a namespace is the parsed
include document if it is an include name, otherwise the inline data of that name
(replacing the environment map for `Env`), otherwise the environment map for `Env`. -/
theorem prepareContext_last_writer_wins (h : Host) (tm : TemplateModel) (hist : List Effect)
    (hData : tm.Config.Data.WF) (hInclude : tm.Config.Include.WF)
    (henv : ∀ v ∈ h.environ, '=' ∈ v.data)
    (hload : ∀ kv ∈ tm.Config.Include, ∃ doc, includeDoc h tm hist kv.2 = some doc) :
    ∃ context envMap, tm.prepareContext h hist = .ok context ∧ envToMap h = .ok envMap ∧
      (∀ k, k ∈ context.keys ↔
        k = "Env" ∨ k ∈ tm.Config.Data.keys ∨ k ∈ tm.Config.Include.keys) ∧
      (∀ k v, tm.Config.Include.get k = some v →
        ∃ doc, readYamlConfig h hist (includePath h tm v) = .ok doc ∧
          context.get k = some doc) ∧
      (∀ k, tm.Config.Include.get k = none →
        ∀ d, tm.Config.Data.get k = some d → context.get k = some d) ∧
      (tm.Config.Include.get "Env" = none → tm.Config.Data.get "Env" = none →
        context.get "Env" = some (envIMap envMap)) := by
  obtain ⟨envMap, hem⟩ := envToMapLoop_ok h.environ henv []
  obtain ⟨f, hf, hloop⟩ := includeLoop_ok h tm hist tm.Config.Include
    (tm.Config.Data.foldl (fun c kv => c.set kv.1 kv.2) (GoMap.set [] "Env" (envIMap envMap)))
    hload
  have hctx : tm.prepareContext h hist = .ok (tm.Config.Include.foldl
      (fun c kv => c.set kv.1 (f kv.2))
      (tm.Config.Data.foldl (fun c kv => c.set kv.1 kv.2)
        (GoMap.set [] "Env" (envIMap envMap)))) := by
    unfold TemplateModel.prepareContext envToMap
    simp only [hem]
    exact hloop
  have hget : ∀ k, GoMap.get (tm.Config.Include.foldl (fun c kv => c.set kv.1 (f kv.2))
      (tm.Config.Data.foldl (fun c kv => c.set kv.1 kv.2)
        (GoMap.set [] "Env" (envIMap envMap)))) k =
      match tm.Config.Include.get k with
      | some v => some (f v)
      | none =>
        match tm.Config.Data.get k with
        | some d => some d
        | none => if "Env" = k then some (envIMap envMap) else none := by
    intro k
    rw [GoMap.get_foldl_set f _ hInclude]
    have hd := GoMap.get_foldl_set (fun d : GoMap Val => d) _ hData
      (GoMap.set [] "Env" (envIMap envMap)) k
    cases hi : tm.Config.Include.get k with
    | some v => rfl
    | none =>
      show GoMap.get (tm.Config.Data.foldl (fun c kv => c.set kv.1 kv.2)
        (GoMap.set [] "Env" (envIMap envMap))) k = _
      rw [hd]
      cases hdk : tm.Config.Data.get k with
      | some d => rfl
      | none => simp [GoMap.set, GoMap.get]
  refine ⟨_, envMap, hctx, hem, ?_, ?_, ?_, ?_⟩
  · intro k
    rw [GoMap.mem_keys_iff, GoMap.mem_keys_iff, GoMap.mem_keys_iff, hget]
    cases hi : tm.Config.Include.get k with
    | some v => simp
    | none =>
      cases hd : tm.Config.Data.get k with
      | some d => simp
      | none =>
        by_cases hk : "Env" = k
        · simp [hk.symm]
        · simp [hk, Ne.symm hk]
  · intro k v hk
    have hmem : (k, v) ∈ tm.Config.Include := GoMap.mem_of_get _ k v hk
    have hdoc := hf (k, v) hmem
    refine ⟨f v, ?_, by rw [hget, hk]⟩
    unfold includeDoc at hdoc
    split at hdoc
    · next d hd => rw [hd]; simpa using hdoc
    · simp at hdoc
  · intro k hk d hd
    rw [hget, hk, hd]
  · intro hi hd
    rw [hget, hi, hd]
    simp

theorem prepareContext_last_writer_wins_witness :
    tmInclude.Config.Data.WF ∧ tmInclude.Config.Include.WF ∧
      (∀ v ∈ fxInclude.host.environ, '=' ∈ v.data) ∧
      (∀ kv ∈ tmInclude.Config.Include, ∃ doc, includeDoc fxInclude.host tmInclude [] kv.2 = some doc) ∧
      ∃ context envMap, tmInclude.prepareContext fxInclude.host [] = .ok context ∧
        envToMap fxInclude.host = .ok envMap ∧
        (∀ k, k ∈ context.keys ↔
          k = "Env" ∨ k ∈ tmInclude.Config.Data.keys ∨ k ∈ tmInclude.Config.Include.keys) ∧
        (∀ k v, tmInclude.Config.Include.get k = some v →
          ∃ doc, readYamlConfig fxInclude.host [] (includePath fxInclude.host tmInclude v) = .ok doc ∧
            context.get k = some doc) ∧
        (∀ k, tmInclude.Config.Include.get k = none →
          ∀ d, tmInclude.Config.Data.get k = some d → context.get k = some d) ∧
        (tmInclude.Config.Include.get "Env" = none → tmInclude.Config.Data.get "Env" = none →
          context.get "Env" = some (envIMap envMap)) :=
  have hload : ∀ kv ∈ tmInclude.Config.Include,
      ∃ doc, includeDoc fxInclude.host tmInclude [] kv.2 = some doc := by
    intro kv hkv
    have : kv = ("inc", "inc.yml") := by simpa [tmInclude] using hkv
    subst this
    exact ⟨[("k", .str "v")], rfl⟩
  ⟨by decide, by decide, by decide, hload,
    prepareContext_last_writer_wins fxInclude.host tmInclude [] (by decide) (by decide)
      (by decide) hload⟩

/-! ### Templates that do not parse -/

theorem Generate_eq_runEntries (h : Host) (tm : TemplateModel)
    (hmk : h.mkdirAll tm.advisory tm.TargetPath = none) :
    tm.Generate h = runEntries (tm.walkFn h tm.excludeMode) (tm.entries h) tm.walkStart := by
  unfold TemplateModel.Generate
  simp only [hmk]
  unfold filepathWalk
  rw [walk_eq_runEntries]
  rfl

/-- The run returns what the callback returns on the first entry where it is not nil. -/
theorem Generate_of_reaches (h : Host) (tm : TemplateModel) (ent : Entry)
    (hist hist1 : List Effect) (r : GoError) (hr : tm.Reaches h ent hist) (hne : r ≠ .ok ())
    (hcb : tm.walkFn h tm.excludeMode ent.path ent.info ent.err hist = (r, hist1)) :
    tm.Generate h = (r, hist1) := by
  obtain ⟨hmk, before, after, hent, hrun⟩ := hr
  rw [Generate_eq_runEntries h tm hmk, hent, runEntries_append, hrun]
  simp only [runEntries, hcb]
  cases r with
  | ok u => cases u; exact absurd rfl hne
  | err e => rfl
  | panic m => rfl

theorem walkFn_filename_parse_failure (h : Host) (tm : TemplateModel) (mode : Bool)
    (relSource name rel : String) (err : Option GoErr) (hist : List Effect) (context : Context)
    (e : GoErr)
    (hskip : tm.skip h mode relSource = .ok false)
    (hrel : h.filepathRel tm.SourcePath relSource = .ok rel)
    (hctx : tm.prepareContext h hist = .ok context)
    (hP : tm.Config.Templates.ProcessFilename = true)
    (hparse : h.templateParse (h.filepathJoin tm.TargetPath rel) = .error e) :
    tm.walkFn h mode relSource (some ⟨name, false⟩) err hist
      = (.panic ("template: " ++ e.msg), hist) := by
  have hname : tm.prepareTargetFilename h context (h.filepathJoin tm.TargetPath rel)
      = .panic ("template: " ++ e.msg) := by
    simp [TemplateModel.prepareTargetFilename, hP, hparse]
  simp [TemplateModel.walkFn, hskip, hrel, hctx, hname]

theorem walkFn_content_parse_failure (h : Host) (tm : TemplateModel) (mode : Bool)
    (relSource name rel realTarget text : String) (err : Option GoErr)
    (hist hist1 : List Effect) (context : Context) (e : GoErr)
    (hskip : tm.skip h mode relSource = .ok false)
    (hrel : h.filepathRel tm.SourcePath relSource = .ok rel)
    (hctx : tm.prepareContext h hist = .ok context)
    (hname : tm.prepareTargetFilename h context (h.filepathJoin tm.TargetPath rel)
      = .ok realTarget)
    (hdir : ensureDir h (h.filepathDir realTarget) hist = (.ok (), hist1))
    (hsuf : stringsHasSuffix name tm.Config.Templates.Suffix = true)
    (hread : h.readFile (hist1 ++ [.print (relSource ++ " --> " ++ realTarget ++ "\n")]) relSource
      = .ok text)
    (hparse : h.templateParse text = .error e) :
    tm.walkFn h mode relSource (some ⟨name, false⟩) err hist
      = (.panic ("template: " ++ e.msg),
          hist1 ++ [.print (relSource ++ " --> " ++ realTarget ++ "\n")]) := by
  simp [TemplateModel.walkFn, hskip, hrel, hctx, hname, hdir, hsuf, genConfig.processTemplate,
    hread, hparse]

/-- C7, as stated, fails: the template `src/bad.tmpl` has an unclosed action; the run does not
return an error, it panics (`template.Must`). -/
theorem Generate_panics_on_unclosed_action :
    fxBadTemplate.host.readFile [] "src/bad.tmpl" = .ok "user=\x7b\x7b.Data.user" ∧
      (∃ e, fxBadTemplate.host.templateParse "user=\x7b\x7b.Data.user" = .error e) ∧
      (⟨"src", "out", "", cfg ".tmpl" false [] [], false⟩ : TemplateModel).Generate
        fxBadTemplate.host
        = (.panic "template: unclosed action",
            [.mkdirAll "out", .print "src/bad.tmpl --> out/bad\n"]) :=
  ⟨rfl, ⟨_, rfl⟩, by decide⟩

/-- C7, amended: when the run gets to a file that is not skipped and whose context builds, a
parse failure makes `Generate` panic (`template.Must`), it is not returned as an error:
so for the candidate target path when filename templating is enabled, and so for the
content of a file whose name ends with the suffix marker. -/
theorem Generate_panics_on_parse_failure (h : Host) (tm : TemplateModel) (ent : Entry)
    (hist : List Effect) (name rel : String) (context : Context)
    (hreach : tm.Reaches h ent hist)
    (hinfo : ent.info = some ⟨name, false⟩)
    (hskip : tm.skip h tm.excludeMode ent.path = .ok false)
    (hrel : h.filepathRel tm.SourcePath ent.path = .ok rel)
    (hctx : tm.prepareContext h hist = .ok context) :
    (∀ e, tm.Config.Templates.ProcessFilename = true →
        h.templateParse (h.filepathJoin tm.TargetPath rel) = .error e →
        (tm.Generate h).1 = .panic ("template: " ++ e.msg)) ∧
      (∀ e realTarget hist1 text,
        tm.prepareTargetFilename h context (h.filepathJoin tm.TargetPath rel) = .ok realTarget →
        ensureDir h (h.filepathDir realTarget) hist = (.ok (), hist1) →
        stringsHasSuffix name tm.Config.Templates.Suffix = true →
        h.readFile (hist1 ++ [.print (ent.path ++ " --> " ++ realTarget ++ "\n")]) ent.path
          = .ok text →
        h.templateParse text = .error e →
        (tm.Generate h).1 = .panic ("template: " ++ e.msg)) := by
  constructor
  · intro e hP hparse
    have hcb := walkFn_filename_parse_failure h tm tm.excludeMode ent.path name rel ent.err hist
      context e hskip hrel hctx hP hparse
    rw [← hinfo] at hcb
    rw [Generate_of_reaches h tm ent hist _ _ hreach (by simp) hcb]
  · intro e realTarget hist1 text hname hdir hsuf hread hparse
    have hcb := walkFn_content_parse_failure h tm tm.excludeMode ent.path name rel realTarget
      text ent.err hist hist1 context e hskip hrel hctx hname hdir hsuf hread hparse
    rw [← hinfo] at hcb
    rw [Generate_of_reaches h tm ent hist _ _ hreach (by simp) hcb]

theorem Generate_panics_on_parse_failure_witness :
    (⟨"src", "out", "", cfg ".tmpl" false [] [], false⟩ : TemplateModel).Reaches
        fxBadTemplate.host ⟨"src/bad.tmpl", some ⟨"bad.tmpl", false⟩, none⟩ [.mkdirAll "out"] ∧
      (⟨"src", "out", "", cfg ".tmpl" false [] [], false⟩ : TemplateModel).skip
        fxBadTemplate.host true "src/bad.tmpl" = .ok false ∧
      fxBadTemplate.host.filepathRel "src" "src/bad.tmpl" = .ok "bad.tmpl" ∧
      (⟨"src", "out", "", cfg ".tmpl" false [] [], false⟩ : TemplateModel).prepareContext
        fxBadTemplate.host [.mkdirAll "out"] = .ok [("Env", [])] ∧
      ((⟨"src", "out", "", cfg ".tmpl" false [] [], false⟩ : TemplateModel).Generate
        fxBadTemplate.host).1 = .panic ("template: " ++ (GoErr.other "unclosed action").msg) :=
  have hreach : (⟨"src", "out", "", cfg ".tmpl" false [] [], false⟩ : TemplateModel).Reaches
      fxBadTemplate.host ⟨"src/bad.tmpl", some ⟨"bad.tmpl", false⟩, none⟩ [.mkdirAll "out"] :=
    ⟨rfl, [⟨"src", some ⟨"src", true⟩, none⟩], [], rfl, by decide⟩
  ⟨hreach, by decide, rfl, rfl,
    (Generate_panics_on_parse_failure fxBadTemplate.host
      ⟨"src", "out", "", cfg ".tmpl" false [] [], false⟩
      ⟨"src/bad.tmpl", some ⟨"bad.tmpl", false⟩, none⟩ [.mkdirAll "out"] "bad.tmpl" "bad.tmpl"
      [("Env", [])] hreach rfl (by decide) rfl rfl).2
      (.other "unclosed action") "out/bad" [.mkdirAll "out"] "user=\x7b\x7b.Data.user"
      (by decide) (by decide) (by decide) rfl rfl⟩

/-! ### The mirror of the source tree -/

theorem processTemplate_ok (h : Host) (c : genConfig) (hist hist1 : List Effect)
    (hok : c.processTemplate h hist = (.ok (), hist1)) :
    ∃ out, hist1 = hist ++ [.print (c.source ++ " --> " ++ c.target ++ "\n"),
      .create c.source c.target, .write c.target out] := by
  unfold genConfig.processTemplate at hok
  dsimp only at hok
  split at hok
  · simp at hok
  · split at hok
    · simp at hok
    · split at hok
      · simp at hok
      · split at hok
        · simp at hok
        · next tpl _ _ _ _ _ =>
          refine ⟨(tpl c.context).1, ?_⟩
          have := (Prod.mk.inj hok).2
          rw [← this]
          simp

theorem fsCopy_ok (h : Host) (src dst : String) (hist hist1 : List Effect) (n : Nat)
    (hok : fsCopy h src dst hist = (.ok n, hist1)) :
    ∃ data, h.readFile (hist ++ [.create src dst]) src = .ok data ∧
      hist1 = hist ++ [.create src dst, .write dst data] := by
  unfold fsCopy at hok
  split at hok
  · simp at hok
  · split at hok
    · simp at hok
    · split at hok
      · simp at hok
      · split at hok
        · simp at hok
        · dsimp only at hok
          split at hok
          · simp at hok
          · next data hread =>
            split at hok
            · simp at hok
            · refine ⟨data, hread, ?_⟩
              have := (Prod.mk.inj hok).2
              rw [← this]
              simp

theorem walkFn_dir_history (h : Host) (tm : TemplateModel) (mode : Bool) (relSource name : String)
    (err : Option GoErr) (hist : List Effect) :
    (tm.walkFn h mode relSource (some ⟨name, true⟩) err hist).2 = hist := by
  unfold TemplateModel.walkFn
  dsimp only
  split
  · rfl
  · rfl
  · rfl
  · split
    · rfl
    · simp

theorem walkFn_nil_info_not_ok (h : Host) (tm : TemplateModel) (mode : Bool) (relSource : String)
    (err : Option GoErr) (hist : List Effect) (hskip : tm.skip h mode relSource = .ok false) :
    (tm.walkFn h mode relSource none err hist).1 ≠ .ok () := by
  unfold TemplateModel.walkFn
  simp only [hskip]
  split <;> simp

theorem ensureDir_ok (h : Host) (d : String) (hist hist1 : List Effect)
    (hok : ensureDir h d hist = (.ok (), hist1)) :
    ∃ mk, (mk = [] ∨ mk = [Effect.mkdirAll d]) ∧ hist1 = hist ++ mk := by
  rcases ensureDir_history h d hist with h1 | ⟨_, h1⟩
  · rw [hok] at h1
    exact ⟨[], Or.inl rfl, by simpa using h1⟩
  · rw [hok] at h1
    exact ⟨[.mkdirAll d], Or.inr rfl, h1⟩

/-- The effects of a successful call of the callback on a file that is not skipped. -/
theorem walkFn_file_ok (h : Host) (tm : TemplateModel) (mode : Bool) (relSource name : String)
    (err : Option GoErr) (hist hist1 : List Effect)
    (hskip : tm.skip h mode relSource = .ok false)
    (hok : tm.walkFn h mode relSource (some ⟨name, false⟩) err hist = (.ok (), hist1)) :
    ∃ dst mk, tm.TargetOf h relSource dst ∧
      (mk = [] ∨ mk = [Effect.mkdirAll (h.filepathDir dst)]) ∧
      ((stringsHasSuffix name tm.Config.Templates.Suffix = true ∧
          ∃ out, hist1 = hist ++ mk ++ [.print (relSource ++ " --> " ++ dst ++ "\n"),
            .create relSource dst, .write dst out]) ∨
        (stringsHasSuffix name tm.Config.Templates.Suffix = false ∧
          ∃ data, h.readFile (hist ++ mk ++ [.create relSource dst]) relSource = .ok data ∧
            hist1 = hist ++ mk ++ [.create relSource dst, .write dst data])) := by
  unfold TemplateModel.walkFn at hok
  simp only [hskip] at hok
  split at hok
  · simp at hok
  · next rel hrel =>
    simp only [Bool.false_eq_true, if_false] at hok
    split at hok
    · simp at hok
    · simp at hok
    · next context hctx =>
      split at hok
      · simp at hok
      · simp at hok
      · next dst hdst =>
        split at hok
        · simp at hok
        · simp at hok
        · next hist2 hdir =>
          obtain ⟨mk, hmk, hh2⟩ := ensureDir_ok h _ hist hist2 hdir
          refine ⟨dst, mk, ⟨rel, hist, context, hrel, hctx, hdst⟩, hmk, ?_⟩
          · split at hok
            · next hsuf =>
              left
              refine ⟨hsuf, ?_⟩
              split at hok
              · next hist3 hpt =>
                obtain ⟨out, hout⟩ := processTemplate_ok h _ hist2 hist3 hpt
                refine ⟨out, ?_⟩
                have := (Prod.mk.inj hok).2
                rw [← this, hout, hh2]
              · next r hne =>
                rcases hr : genConfig.processTemplate h ⟨relSource, dst, context⟩ hist2
                  with ⟨r1, hist3⟩
                rw [hr] at hok
                cases r1 with
                | ok u => cases u; exact absurd hr (hne hist3)
                | err e => simp at hok
                | panic m => simp at hok
            · next hsuf =>
              right
              refine ⟨by simpa using hsuf, ?_⟩
              split at hok
              · next n hist3 hcp =>
                obtain ⟨data, hread, hout⟩ := fsCopy_ok h _ _ hist2 hist3 n hcp
                refine ⟨data, ?_, ?_⟩
                · rw [← hh2]; exact hread
                · have := (Prod.mk.inj hok).2
                  rw [← this, hout, hh2]
              · simp at hok
              · simp at hok

theorem runEntries_cons_ok (walkFn : WalkFunc) (ent : Entry) (rest : List Entry)
    (hist final : List Effect) (hok : runEntries walkFn (ent :: rest) hist = (.ok (), final)) :
    ∃ hist1, walkFn ent.path ent.info ent.err hist = (.ok (), hist1) ∧
      runEntries walkFn rest hist1 = (.ok (), final) := by
  unfold runEntries at hok
  rcases hr : walkFn ent.path ent.info ent.err hist with ⟨r, hist1⟩
  rw [hr] at hok
  cases r with
  | ok u => cases u; exact ⟨hist1, rfl, hok⟩
  | err e => simp at hok
  | panic m => simp at hok

theorem foldl_contentStep_of_untouched (p : String) (l : List Effect) (c : Option String)
    (hc : ∀ src, Effect.create src p ∉ l) (hw : ∀ data, Effect.write p data ∉ l) :
    l.foldl (contentStep p) c = c := by
  induction l generalizing c with
  | nil => rfl
  | cons e rest ih =>
    have hc' : ∀ src, Effect.create src p ∉ rest := fun src hm => hc src (by simp [hm])
    have hw' : ∀ data, Effect.write p data ∉ rest := fun data hm => hw data (by simp [hm])
    simp only [List.foldl_cons]
    cases e with
    | print line => simpa [contentStep] using ih c hc' hw'
    | mkdirAll q => simpa [contentStep] using ih c hc' hw'
    | create src dst =>
      have hne : dst ≠ p := by
        rintro rfl
        exact hc src (by simp)
      simpa [contentStep, hne] using ih c hc' hw'
    | write dst data =>
      have hne : dst ≠ p := by
        rintro rfl
        exact hw data (by simp)
      simpa [contentStep, hne] using ih c hc' hw'

/-- A file created and written, and not created or written again afterwards, holds the bytes
written. -/
theorem contentAfter_written (before after : List Effect) (src p data : String)
    (hc : ∀ src', Effect.create src' p ∉ after) (hw : ∀ data', Effect.write p data' ∉ after) :
    contentAfter (before ++ [.create src p, .write p data] ++ after) p = some data := by
  unfold contentAfter
  rw [List.foldl_append, List.foldl_append, foldl_contentStep_of_untouched p after _ hc hw]
  simp [contentStep]

/-- A successful run over entries none of which is skipped: one file created per file entry,
in order, at its real target; directories made only for created files; writes only to
created files; files that are not templates written with the bytes read, which stay the
content of the target unless it is created again later. -/
theorem runEntries_mirror (h : Host) (tm : TemplateModel) (mode : Bool)
    (hskip : ∀ p, tm.skip h mode p = .ok false) :
    ∀ (entries : List Entry) (hist final : List Effect),
      runEntries (tm.walkFn h mode) entries hist = (.ok (), final) →
      ∃ added, final = hist ++ added ∧
        List.Forall₂ (fun c ent => c.1 = ent.path ∧ tm.TargetOf h ent.path c.2)
          (added.filterMap Effect.created) (entries.filter Entry.isFile) ∧
        (∀ p, Effect.mkdirAll p ∈ added →
          ∃ c ∈ added.filterMap Effect.created, p = h.filepathDir c.2) ∧
        (∀ d x, Effect.write d x ∈ added → ∃ src, Effect.create src d ∈ added) ∧
        (∀ ent ∈ entries, ∀ name, ent.info = some ⟨name, false⟩ →
          stringsHasSuffix name tm.Config.Templates.Suffix = false →
          ∃ before after dst data,
            added = before ++ [.create ent.path dst, .write dst data] ++ after ∧
            tm.TargetOf h ent.path dst ∧
            h.readFile (hist ++ before ++ [.create ent.path dst]) ent.path = .ok data ∧
            ((∀ src, Effect.create src dst ∉ after) →
              contentAfter (hist ++ added) dst = some data)) := by
  intro entries
  induction entries with
  | nil =>
    intro hist final hok
    refine ⟨[], ?_, ?_, ?_, ?_, ?_⟩
    · simpa [runEntries] using hok.symm
    · simp
    · simp
    · simp
    · simp
  | cons ent rest ih =>
    intro hist final hok
    obtain ⟨hist1, hcb, hrest⟩ := runEntries_cons_ok _ ent rest hist final hok
    obtain ⟨added', hfinal, hcreates, hmk, hwr, hdata⟩ := ih hist1 final hrest
    obtain ⟨path, info, err⟩ := ent
    cases info with
    | none =>
      exact absurd (by rw [hcb]) (walkFn_nil_info_not_ok h tm mode path err hist (hskip path))
    | some fi =>
      obtain ⟨name, isDir⟩ := fi
      cases isDir with
      | true =>
        have hh : hist1 = hist := by
          have := walkFn_dir_history h tm mode path name err hist
          dsimp only at hcb
          rw [hcb] at this
          exact this
        subst hh
        refine ⟨added', hfinal, ?_, hmk, hwr, ?_⟩
        · simpa [List.filter_cons, Entry.isFile] using hcreates
        · intro ent hent name' hinfo hsuf
          rcases List.mem_cons.mp hent with rfl | hent
          · simp at hinfo
          · exact hdata ent hent name' hinfo hsuf
      | false =>
        dsimp only at hcb
        obtain ⟨dst, mk, htarget, hmk1, hcase⟩ :=
          walkFn_file_ok h tm mode path name err hist hist1 (hskip path) hcb
        have hmkc : mk.filterMap Effect.created = [] := by
          rcases hmk1 with rfl | rfl <;> simp [Effect.created]
        have hmkm : ∀ p, Effect.mkdirAll p ∈ mk → p = h.filepathDir dst := by
          intro p hp
          rcases hmk1 with rfl | rfl
          · simp at hp
          · simpa using hp
        have hmkw : ∀ d x, Effect.write d x ∉ mk := by
          intro d x hp
          rcases hmk1 with rfl | rfl <;> simp at hp
        rcases hcase with ⟨hsuf, out, hout⟩ | ⟨hsuf, data, hread, hout⟩
        · refine ⟨mk ++ [.print (path ++ " --> " ++ dst ++ "\n"), .create path dst, .write dst out]
            ++ added', ?_, ?_, ?_, ?_, ?_⟩
          · rw [hfinal, hout]; simp
          · simp only [List.filterMap_append, hmkc, List.nil_append, List.filter_cons]
            simpa [Effect.created, Entry.isFile] using ⟨htarget, hcreates⟩
          · intro p hp
            simp only [List.mem_append, List.mem_cons, List.mem_singleton] at hp
            rcases hp with (hp | hp) | hp
            · exact ⟨(path, dst), by simp [List.filterMap_append, Effect.created], hmkm p hp⟩
            · simp at hp
            · obtain ⟨c, hc, hpc⟩ := hmk p hp
              exact ⟨c, by simp only [List.filterMap_append, List.mem_append]; exact Or.inr hc,
                hpc⟩
          · intro d x hp
            simp only [List.mem_append, List.mem_cons, List.mem_singleton] at hp
            rcases hp with (hp | hp) | hp
            · exact absurd hp (hmkw d x)
            · have hd : d = dst := by
                simp only [Effect.write.injEq, reduceCtorEq, false_or, List.not_mem_nil,
                  or_false] at hp
                exact hp.1
              exact ⟨path, by simp [hd]⟩
            · obtain ⟨src, hsrc⟩ := hwr d x hp
              exact ⟨src, by simp [hsrc]⟩
          · intro ent hent name' hinfo hsuf'
            rcases List.mem_cons.mp hent with rfl | hent
            · simp only [Option.some.injEq, FileInfo.mk.injEq, and_true] at hinfo
              subst hinfo
              rw [hsuf] at hsuf'
              exact absurd hsuf' (by simp)
            · obtain ⟨before, after, dst', data', hadd, ht, hr, hcont⟩ :=
                hdata ent hent name' hinfo hsuf'
              refine ⟨mk ++ [.print (path ++ " --> " ++ dst ++ "\n"), .create path dst,
                .write dst out] ++ before, after, dst', data', ?_, ht, ?_, ?_⟩
              · rw [hadd]; simp
              · rw [hout] at hr
                rw [← hr]
                simp
              · intro hno
                have := hcont hno
                rw [hout] at this
                rw [← this]
                simp
        · refine ⟨mk ++ [.create path dst, .write dst data] ++ added', ?_, ?_, ?_, ?_, ?_⟩
          · rw [hfinal, hout]; simp
          · simp only [List.filterMap_append, hmkc, List.nil_append, List.filter_cons]
            simpa [Effect.created, Entry.isFile] using ⟨htarget, hcreates⟩
          · intro p hp
            simp only [List.mem_append, List.mem_cons, List.mem_singleton] at hp
            rcases hp with (hp | hp) | hp
            · exact ⟨(path, dst), by simp [List.filterMap_append, Effect.created], hmkm p hp⟩
            · simp at hp
            · obtain ⟨c, hc, hpc⟩ := hmk p hp
              exact ⟨c, by simp only [List.filterMap_append, List.mem_append]; exact Or.inr hc,
                hpc⟩
          · intro d x hp
            simp only [List.mem_append, List.mem_cons, List.mem_singleton] at hp
            rcases hp with (hp | hp) | hp
            · exact absurd hp (hmkw d x)
            · have hd : d = dst := by
                simp only [Effect.write.injEq, reduceCtorEq, false_or, List.not_mem_nil,
                  or_false] at hp
                exact hp.1
              exact ⟨path, by simp [hd]⟩
            · obtain ⟨src, hsrc⟩ := hwr d x hp
              exact ⟨src, by simp [hsrc]⟩
          · intro ent hent name' hinfo hsuf'
            rcases List.mem_cons.mp hent with rfl | hent
            · refine ⟨mk, added', dst, data, by simp, htarget, hread, ?_⟩
              intro hno
              have hnw : ∀ data', Effect.write dst data' ∉ added' := by
                intro data' hm
                obtain ⟨src, hsrc⟩ := hwr dst data' hm
                exact hno src hsrc
              have hlist : hist ++ (mk ++ [Effect.create path dst, Effect.write dst data]
                  ++ added') = (hist ++ mk) ++ [.create path dst, .write dst data] ++ added' := by
                simp
              rw [hlist]
              exact contentAfter_written (hist ++ mk) added' path dst data hno hnw
            · obtain ⟨before, after, dst', data', hadd, ht, hr, hcont⟩ :=
                hdata ent hent name' hinfo hsuf'
              refine ⟨mk ++ [.create path dst, .write dst data] ++ before, after, dst', data', ?_,
                ht, ?_, ?_⟩
              · rw [hadd]; simp
              · rw [hout] at hr
                rw [← hr]
                simp
              · intro hno
                have := hcont hno
                rw [hout] at this
                rw [← this]
                simp

theorem prepareTargetFilename_unprocessed (h : Host) (tm : TemplateModel) (context : Context)
    (p : String) (hP : tm.Config.Templates.ProcessFilename = false) :
    tm.prepareTargetFilename h context p =
      .ok (if stringsHasSuffix p tm.Config.Templates.Suffix
        then sliceOff p tm.Config.Templates.Suffix else p) := by
  unfold TemplateModel.prepareTargetFilename
  simp only [hP]
  by_cases hs : stringsHasSuffix p tm.Config.Templates.Suffix = true <;> simp [hs]

theorem forall₂_exists_of_mem_left {α β : Type} (R : α → β → Prop) (l₁ : List α) (l₂ : List β)
    (hR : List.Forall₂ R l₁ l₂) : ∀ a ∈ l₁, ∃ b ∈ l₂, R a b := by
  induction hR with
  | nil => simp
  | cons hab _ ih =>
    intro a ha
    rcases List.mem_cons.mp ha with rfl | ha
    · exact ⟨_, by simp, hab⟩
    · obtain ⟨b, hb, hr⟩ := ih a ha
      exact ⟨b, by simp [hb], hr⟩

/-- C6, as stated, fails, in three ways. (1) The source directory `src` has the empty
directory `d`; the run with empty exclude and include lists succeeds and nothing is
created at `out/d`, which still does not exist after the run. (2) With the plain file
`src/a` (content `PLAIN`) beside the template `src/a.tmpl` (content `TEMPLATE`), both
are written to `out/a` and the run ends with `out/a` holding `TEMPLATE`, not the bytes
of the plain file. (3) With filename templating enabled and the environment entry
`USER=tester`, the source file with the relative path `{{.Env.USER}}.txt` is written to
`out/tester.txt`, a relative path the source does not have. -/
theorem Generate_does_not_mirror_exactly :
    (((⟨"src", "out", "", cfg ".tmpl" false [] [], false⟩ : TemplateModel).entries
          fxTree.host).map Entry.path
          = ["src", "src/a.log", "src/app.conf.tmpl", "src/d", "src/debug.log"] ∧
        fxTree.host.filepathRel "src" "src/d" = .ok "d" ∧
        fxTree.host.filepathJoin "out" "d" = "out/d" ∧
        (⟨"src", "out", "", cfg ".tmpl" false [] [], false⟩ : TemplateModel).Generate fxTree.host
          = (.ok (),
            [.mkdirAll "out",
             .create "src/a.log" "out/a.log", .write "out/a.log" "hello",
             .print "src/app.conf.tmpl --> out/app.conf\n",
             .create "src/app.conf.tmpl" "out/app.conf", .write "out/app.conf" "user=alice",
             .create "src/debug.log" "out/debug.log", .write "out/debug.log" "dbg"]) ∧
        fxTree.host.stat
          ((⟨"src", "out", "", cfg ".tmpl" false [] [], false⟩ : TemplateModel).Generate
            fxTree.host).2 "out/d" = .error (.notExist "stat out/d")) ∧
      (stringsHasSuffix "a" ".tmpl" = false ∧
        fxCollide.host.readFile [] "src/a" = .ok "PLAIN" ∧
        (⟨"src", "out", "", cfg ".tmpl" false [] [], false⟩ : TemplateModel).Generate
          fxCollide.host
          = (.ok (),
            [.mkdirAll "out",
             .create "src/a" "out/a", .write "out/a" "PLAIN",
             .print "src/a.tmpl --> out/a\n",
             .create "src/a.tmpl" "out/a", .write "out/a" "TEMPLATE"]) ∧
        contentAfter
          ((⟨"src", "out", "", cfg ".tmpl" false [] [], false⟩ : TemplateModel).Generate
            fxCollide.host).2 "out/a" = some "TEMPLATE") ∧
      (fxNamed.host.filepathRel "src" "src/\x7b\x7b.Env.USER\x7d\x7d.txt"
          = .ok "\x7b\x7b.Env.USER\x7d\x7d.txt" ∧
        (⟨"src", "out", "", cfg ".tmpl" true [] [], false⟩ : TemplateModel).Generate fxNamed.host
          = (.ok (),
            [.mkdirAll "out",
             .create "src/\x7b\x7b.Env.USER\x7d\x7d.txt" "out/tester.txt",
             .write "out/tester.txt" "hi"]) ∧
        fxNamed.host.filepathRel "out" "out/tester.txt" = .ok "tester.txt") :=
  ⟨⟨by decide, rfl, by decide, by decide, rfl⟩,
    ⟨by decide, rfl, by decide, by decide⟩,
    ⟨rfl, by decide, rfl⟩⟩

/-- C6, amended: with empty exclude and include lists, a successful `Generate` creates exactly
one target file per source entry that is not a directory, in walk order, at the real target
path of the entry (what `prepareTargetFilename` returns for the target root joined with the
relative path: with filename templating disabled, that path with the suffix marker
stripped from its end); it makes no directory but the target root and the directories of
the files it creates (a source directory without files is not reproduced); and every file
whose name does not end with the suffix marker is written with the bytes read from the
source, which are the content of its target file at the end of the run unless a later
entry is created at the same target path. -/
theorem Generate_mirrors_files (h : Host) (tm : TemplateModel) (final : List Effect)
    (hE : tm.Config.Templates.Excludes = []) (hI : tm.Config.Templates.Includes = [])
    (hok : tm.Generate h = (.ok (), final)) :
    List.Forall₂ (fun c ent => c.1 = ent.path ∧ tm.TargetOf h ent.path c.2)
        (final.filterMap Effect.created) ((tm.entries h).filter Entry.isFile) ∧
      (∀ p, Effect.mkdirAll p ∈ final →
        p = tm.TargetPath ∨ ∃ c ∈ final.filterMap Effect.created, p = h.filepathDir c.2) ∧
      (∀ ent ∈ tm.entries h, ∀ name, ent.info = some ⟨name, false⟩ →
        stringsHasSuffix name tm.Config.Templates.Suffix = false →
        ∃ before after dst data,
          final = before ++ [.create ent.path dst, .write dst data] ++ after ∧
          tm.TargetOf h ent.path dst ∧
          h.readFile (before ++ [.create ent.path dst]) ent.path = .ok data ∧
          ((∀ src, Effect.create src dst ∉ after) → contentAfter final dst = some data)) ∧
      (tm.Config.Templates.ProcessFilename = false →
        ∀ c ∈ final.filterMap Effect.created,
          ∃ rel, h.filepathRel tm.SourcePath c.1 = .ok rel ∧
            (stringsHasSuffix (h.filepathJoin tm.TargetPath rel) tm.Config.Templates.Suffix = true →
              c.2 ++ tm.Config.Templates.Suffix = h.filepathJoin tm.TargetPath rel) ∧
            (stringsHasSuffix (h.filepathJoin tm.TargetPath rel) tm.Config.Templates.Suffix = false →
              c.2 = h.filepathJoin tm.TargetPath rel)) := by
  have hmode := excludeMode_of_no_includes tm hI
  have hadv : tm.advisory = [] := by simp [TemplateModel.advisory, hmode]
  have hstart : tm.walkStart = [.mkdirAll tm.TargetPath] := by
    simp [TemplateModel.walkStart, hadv]
  have hmk : h.mkdirAll tm.advisory tm.TargetPath = none := by
    cases hm : h.mkdirAll tm.advisory tm.TargetPath with
    | none => rfl
    | some e =>
      unfold TemplateModel.Generate at hok
      simp [hm] at hok
  have hskip : ∀ p, tm.skip h tm.excludeMode p = .ok false :=
    fun p => skip_of_no_excludes h tm p hE
  rw [Generate_eq_runEntries h tm hmk] at hok
  obtain ⟨added, hfinal, hcreates, hdirs, _, hdata⟩ :=
    runEntries_mirror h tm tm.excludeMode hskip (tm.entries h) tm.walkStart final hok
  have hfc : final.filterMap Effect.created = added.filterMap Effect.created := by
    rw [hfinal, hstart]
    simp [List.filterMap_append, Effect.created]
  refine ⟨by rw [hfc]; exact hcreates, ?_, ?_, ?_⟩
  · intro p hp
    rw [hfinal, hstart] at hp
    simp only [List.mem_append, List.mem_singleton] at hp
    rcases hp with hp | hp
    · left; simpa using hp
    · right; rw [hfc]; exact hdirs p hp
  · intro ent hent name hinfo hsuf
    obtain ⟨before, after, dst, data, hadd, ht, hr, hcont⟩ := hdata ent hent name hinfo hsuf
    refine ⟨tm.walkStart ++ before, after, dst, data, ?_, ht, hr, ?_⟩
    · rw [hfinal, hadd]
      simp
    · intro hno
      rw [hfinal]
      exact hcont hno
  · intro hP c hc
    rw [hfc] at hc
    obtain ⟨ent, _, hpath, rel, hist', context, hrel, _, hdst⟩ :=
      forall₂_exists_of_mem_left _ _ _ hcreates c hc
    rw [prepareTargetFilename_unprocessed h tm context _ hP] at hdst
    refine ⟨rel, by rw [hpath]; exact hrel, ?_, ?_⟩
    · intro hs
      simp only [hs, if_true, Res.ok.injEq] at hdst
      rw [← hdst]
      exact sliceOff_append _ _ hs
    · intro hs
      simp only [hs, Bool.false_eq_true, if_false, Res.ok.injEq] at hdst
      exact hdst.symm

theorem Generate_mirrors_files_witness :
    (cfg ".tmpl" false [] []).Templates.Excludes = [] ∧
      (cfg ".tmpl" false [] []).Templates.Includes = [] ∧
      (⟨"src", "out", "", cfg ".tmpl" false [] [], false⟩ : TemplateModel).Generate fxTree.host
        = (.ok (),
          [Effect.mkdirAll "out",
           .create "src/a.log" "out/a.log", .write "out/a.log" "hello",
           .print "src/app.conf.tmpl --> out/app.conf\n",
           .create "src/app.conf.tmpl" "out/app.conf", .write "out/app.conf" "user=alice",
           .create "src/debug.log" "out/debug.log", .write "out/debug.log" "dbg"]) ∧
      (∀ p, Effect.mkdirAll p ∈
          [Effect.mkdirAll "out",
           .create "src/a.log" "out/a.log", .write "out/a.log" "hello",
           .print "src/app.conf.tmpl --> out/app.conf\n",
           .create "src/app.conf.tmpl" "out/app.conf", .write "out/app.conf" "user=alice",
           .create "src/debug.log" "out/debug.log", .write "out/debug.log" "dbg"] →
        p = "out" ∨ ∃ c ∈ List.filterMap Effect.created
          [Effect.mkdirAll "out",
           .create "src/a.log" "out/a.log", .write "out/a.log" "hello",
           .print "src/app.conf.tmpl --> out/app.conf\n",
           .create "src/app.conf.tmpl" "out/app.conf", .write "out/app.conf" "user=alice",
           .create "src/debug.log" "out/debug.log", .write "out/debug.log" "dbg"],
          p = fxTree.host.filepathDir c.2) ∧
      (∃ before after dst data,
        [Effect.mkdirAll "out",
           .create "src/a.log" "out/a.log", .write "out/a.log" "hello",
           .print "src/app.conf.tmpl --> out/app.conf\n",
           .create "src/app.conf.tmpl" "out/app.conf", .write "out/app.conf" "user=alice",
           .create "src/debug.log" "out/debug.log", .write "out/debug.log" "dbg"]
          = before ++ [.create "src/a.log" dst, .write dst data] ++ after ∧
        (⟨"src", "out", "", cfg ".tmpl" false [] [], false⟩ : TemplateModel).TargetOf
          fxTree.host "src/a.log" dst ∧
        fxTree.host.readFile (before ++ [.create "src/a.log" dst]) "src/a.log" = .ok data ∧
        ((∀ src, Effect.create src dst ∉ after) →
          contentAfter
            [Effect.mkdirAll "out",
           .create "src/a.log" "out/a.log", .write "out/a.log" "hello",
           .print "src/app.conf.tmpl --> out/app.conf\n",
           .create "src/app.conf.tmpl" "out/app.conf", .write "out/app.conf" "user=alice",
           .create "src/debug.log" "out/debug.log", .write "out/debug.log" "dbg"] dst = some data)) :=
  have hrun := Generate_mirrors_files fxTree.host
    ⟨"src", "out", "", cfg ".tmpl" false [] [], false⟩
    [Effect.mkdirAll "out",
           .create "src/a.log" "out/a.log", .write "out/a.log" "hello",
           .print "src/app.conf.tmpl --> out/app.conf\n",
           .create "src/app.conf.tmpl" "out/app.conf", .write "out/app.conf" "user=alice",
           .create "src/debug.log" "out/debug.log", .write "out/debug.log" "dbg"]
    rfl rfl (by decide)
  ⟨rfl, rfl, by decide, hrun.2.1,
    hrun.2.2.1 ⟨"src/a.log", some ⟨"a.log", false⟩, none⟩
      (List.Mem.tail _ (List.Mem.head _)) "a.log" rfl (by decide)⟩

end Tymlate
